import Mathlib

/-!
Verification development for the booster-pack generation and balancing
engine of the booster-tutor repository.

The Python sources are shallowly embedded:

* `src/boostertutor/models/mtg_card.py`   → `CardMeta`, `MtgCard.mana`
* `src/boostertutor/models/mtg_pack.py`   → `MtgPack`, `count_cards_colors`,
  `is_balanced`, `balanced_commons`, `rebalance_commons`, `has_duplicates`,
  `max_cards_per_color`, `contains_creature`
* `src/boostertutor/models/mtgjson_sql.py`→ `BoosterType`, `SheetCard`,
  `Sheet`, `BoosterContent`, `BoosterVariation`, `BoosterMeta`, `SetMeta`,
  `CardDb`
* `src/boostertutor/generator.py`         → `get_set_booster_meta_pair`,
  `get_pack_internal`, `get_pack`, `get_cube_pack`, `get_pack_ev`

Modelling conventions:

* Python strings that are dissected character-wise (mana-cost strings,
  cube slot specifications) are embedded as `List Char`, so that all
  operations compute in the kernel; strings used only for equality tests
  (names, rarities, type lines) stay `String`.
* Python object identity (`is` / `is not`, used by the repair algorithm's
  swap step) is modelled by a numeric `id` field on cards; the embeddings
  agree with the source whenever ids are distinct, which mirrors distinct
  Python objects.
* The global random generator is modelled by explicit oracle functions
  `Nat → Nat`; a random choice from a list `l` is `l.getD (oracle i % l.length) d`,
  so every possible random outcome corresponds to some oracle.
* `numpy.random.choice(replace=False, p=w)` is modelled by `sampleCards`,
  which repeatedly lets the oracle pick among the remaining entries of
  positive weight, mirroring the documented numpy semantics that
  zero-probability entries are never drawn and draws are distinct.
* Fallible Python code (assertions, `ValueError`, missing keys) returns
  `Option`; floats are modelled as exact rationals.
-/

namespace BoosterTutor

/-- A mana symbol or color string, e.g. `['W']` or `['W','U']`; the
character-level view of the Python strings handled by `MtgCard.mana`. -/
abbrev Sym := List Char

/-- Card metadata, the fields of `CardMeta` (mtgjson_sql.py) that the
claims exercise.  `mana_cost` is the raw cost string (as characters),
`colors` the color-identity list used as the fallback in `mana()`. -/
structure CardMeta where
  name : String
  rarity : String
  types : List String
  supertypes : List String
  mana_cost : Option (List Char)
  colors : List Sym
  deriving DecidableEq, Repr, Inhabited

/-- A card in a pack: `MtgCard` from mtg_card.py.  `id` stands for Python
object identity (two `MtgCard` objects are distinct even when equal). -/
structure MtgCard where
  id : Nat
  meta : CardMeta
  foil : Bool
  deriving DecidableEq, Repr, Inhabited

/-- Python `str.lstrip(c)` on a character list. -/
def lstripChar (c : Char) (l : List Char) : List Char :=
  l.dropWhile (· == c)

/-- Python `str.rstrip(c)` on a character list. -/
def rstripChar (c : Char) (l : List Char) : List Char :=
  (l.reverse.dropWhile (· == c)).reverse

/-- Python `str.split("}{")` on a character list. -/
def splitCost : List Char → List (List Char)
  | [] => [[]]
  | '}' :: '{' :: rest => [] :: splitCost rest
  | ch :: rest =>
    match splitCost rest with
    | [] => [[ch]]
    | s :: ss => (ch :: s) :: ss

/-- Python `str.split(sep)` for a one-character separator. -/
def splitChar (sep : Char) : List Char → List (List Char)
  | [] => [[]]
  | ch :: rest =>
    if ch == sep then [] :: splitChar sep rest
    else
      match splitChar sep rest with
      | [] => [[ch]]
      | s :: ss => (ch :: s) :: ss

/-- The five primary color strings, `["W", "U", "B", "R", "G"]`. -/
def primarySyms : List Sym := [['W'], ['U'], ['B'], ['R'], ['G']]

/-- `MtgCard.mana` (mtg_card.py lines 52-81): the color(s) of the card,
parsed from its mana cost, with hybrid symbols merged into one two-letter
entry and the `colors` field as fallback when there is no cost. -/
def MtgCard.mana (c : MtgCard) : List Sym :=
  match c.meta.mana_cost with
  | some mc =>
    if mc.isEmpty then c.meta.colors else
    let cost := splitCost (rstripChar '}' (lstripChar '{' mc))
    let mana := primarySyms.filter (fun col => cost.contains col)
    if mana.isEmpty then
      let hybrid := cost.foldl
        (fun acc sym => if sym.contains '/' then acc ++ splitChar '/' sym else acc) []
      let hybridColors := primarySyms.filter (fun col => hybrid.contains col)
      match hybridColors with
      | [a, b] => [a ++ b]
      | l => l
    else mana
  | none => c.meta.colors

/-- The dict's key list `["W","U","B","R","G","C"]` in iteration order. -/
def colorKeys : List Char := ['W', 'U', 'B', 'R', 'G', 'C']

/-- The `colors` dict of `count_cards_colors`, as a map from its six keys
to card lists (any other key reads as `[]` and is never written). -/
def ColorBuckets := Char → List MtgCard

/-- The freshly initialised dict: every bucket empty. -/
def ColorBuckets.empty : ColorBuckets := fun _ => []

/-- Dictionary access `colors[k]`. -/
def ColorBuckets.get (bs : ColorBuckets) (k : Char) : List MtgCard := bs k

/-- `colors[k].append(card)`.  A key outside W/U/B/R/G/C would raise
`KeyError` in Python; the model leaves the dict unchanged there. -/
def ColorBuckets.add (bs : ColorBuckets) (ch : Char) (card : MtgCard) : ColorBuckets :=
  if ch ∈ colorKeys then
    fun k => if k = ch then bs k ++ [card] else bs k
  else bs

/-- `counts.values()` in iteration order. -/
def ColorBuckets.countsList (bs : ColorBuckets) : List Nat :=
  colorKeys.map (fun k => (bs k).length)

/-- Processing of one card inside the `count_cards_colors` loop
(mtg_pack.py lines 100-111). -/
def addCardColors (countHybrids : Bool) (bs : ColorBuckets) (card : MtgCard) : ColorBuckets :=
  match card.mana with
  | [s] =>
    if countHybrids then s.foldl (fun acc ch => acc.add ch card) bs
    else
      match s with
      | [ch] => bs.add ch card
      | _ => bs
  | [] => bs.add 'C' card
  | _ => bs

/-- `MtgPack.count_cards_colors` (mtg_pack.py lines 89-113); the counts
dict is recovered from the buckets by taking lengths. -/
def count_cards_colors (cards : List MtgCard) (countHybrids : Bool) : ColorBuckets :=
  cards.foldl (addCardColors countHybrids) ColorBuckets.empty

/-- A pack slot: one value of the `content` dict of `MtgPack`.  A missing
`"backups"` key is modelled as the empty backup list. -/
structure Slot where
  cards : List MtgCard
  backups : List MtgCard
  balance : Bool
  deriving DecidableEq, Repr, Inhabited

/-- `max(counts.values())` for the cards of a slot. -/
def maxCardsColors (cards : List MtgCard) : Nat :=
  ((count_cards_colors cards true).countsList).foldl max 0

/-- `MtgPack.contains_creature` restricted to one slot's cards. -/
def containsCreature (cards : List MtgCard) : Bool :=
  cards.any (fun card => card.meta.types.contains "Creature")

/-- `missing_colors` of `rebalance_commons` (mtg_pack.py lines 136-138):
the primary colors whose count is zero, in key order. -/
def missingColors (bs : ColorBuckets) : List Char :=
  colorKeys.filter (fun k => !(k = 'C' : Bool) && (bs.get k).length == 0)

/-- `max(common_counts.items(), key=lambda x: x[1])[1]`: the largest
bucket count. -/
def maxCount (bs : ColorBuckets) : Nat :=
  bs.countsList.foldl max 0

/-- `swap_colors` of `rebalance_commons` (mtg_pack.py lines 144-148):
the keys holding the maximum count, with `"C"` dropped when it ties with
at least one other key. -/
def swapColorsOf (bs : ColorBuckets) : List Char :=
  let s0 := colorKeys.filter (fun k => (bs.get k).length == maxCount bs)
  if s0.length > 1 ∧ s0.contains 'C' then s0.erase 'C' else s0

/-- `colors[k].pop()`: the last card of a bucket. -/
def popBucket (bs : ColorBuckets) (k : Char) : MtgCard :=
  ((bs.get k).getLast?).getD default

/-- The swap block of `rebalance_commons` (mtg_pack.py lines 150-159):
one primary card of the randomly chosen maximal color is replaced (by
object identity) with one backup card of the missing `color`, and that
backup card is removed from the backup pool. -/
def swapSlot (r : Nat) (slot : Slot) (color : Char) : Slot :=
  let commonColors := count_cards_colors slot.cards true
  let bkpColors := count_cards_colors slot.backups true
  let swapColors := swapColorsOf commonColors
  let swapColor := swapColors.getD (r % swapColors.length) 'C'
  let swap := popBucket commonColors swapColor
  let bkp := popBucket bkpColors color
  { slot with
    cards := slot.cards.map (fun x => if x.id = swap.id then bkp else x),
    backups := slot.backups.filter (fun x => !(x.id = bkp.id : Bool)) }

/-- `MtgPack.rebalance_commons` (mtg_pack.py lines 132-170), with
explicit fuel standing for the recursion depth and doubling as the index
into the random oracle; `none` means the fuel ran out (which, by
`rebalance_commons_terminates`, never happens from `backups.length + 1`). -/
def rebalance_commons (oracle : Nat → Nat) : Nat → Slot → Option (Bool × Slot)
  | 0, _ => none
  | fuel + 1, slot =>
    match missingColors (count_cards_colors slot.cards true) with
    | [] => some (true, slot)
    | color :: _ =>
      if ((count_cards_colors slot.backups true).get color).length ≠ 0 then
        if maxCount (count_cards_colors slot.cards true) > 1 then
          rebalance_commons oracle fuel (swapSlot (oracle fuel) slot color)
        else some (false, slot)
      else some (false, slot)

/-- `rebalance_commons` with enough fuel to run to completion. -/
def rebalanceRun (oracle : Nat → Nat) (slot : Slot) : Bool × Slot :=
  (rebalance_commons oracle (slot.backups.length + 1) slot).getD (false, slot)

/-- `MtgPack.balanced_commons` (mtg_pack.py lines 115-130), returning the
possibly repaired slot alongside the verdict. -/
def balanced_commons (oracle : Nat → Nat) (rebalance : Bool) (slot : Slot) : Bool × Slot :=
  let counts := (count_cards_colors slot.cards true).countsList
  let missing := ((counts.take 5).filter (· == 0)).length
  if missing ≠ 0 then
    if rebalance then rebalanceRun oracle slot else (false, slot)
  else (true, slot)

/-- The per-slot part of `MtgPack.is_balanced` (mtg_pack.py lines 41-76):
verdict plus the slot as left behind (possibly repaired). -/
def checkSlot (oracle : Nat → Nat) (rebalance : Bool) (slot : Slot) : Bool × Slot :=
  if slot.balance then
    let res := balanced_commons oracle rebalance slot
    if !res.1 then (false, res.2)
    else if maxCardsColors res.2.cards > 4 then (false, res.2)
    else if !containsCreature res.2.cards then (false, res.2)
    else (true, res.2)
  else
    match slot.cards with
    | [] => (true, slot)
    | c0 :: _ =>
      if !c0.foil && (c0.meta.rarity == "uncommon") then
        if maxCardsColors slot.cards > 2 then (false, slot) else (true, slot)
      else (true, slot)

/-- The slot loop of `MtgPack.is_balanced`: early exit on the first
failing slot, keeping the mutations already applied. -/
def checkSlots (oracle : Nat → Nat) (rebalance : Bool) : List Slot → Bool × List Slot
  | [] => (true, [])
  | s :: rest =>
    let res := checkSlot oracle rebalance s
    if res.1 then
      let rec' := checkSlots oracle rebalance rest
      (rec'.1, res.2 :: rec'.2)
    else (false, res.2 :: rest)

/-- A generated pack: the `content` dict of `MtgPack`, slot names dropped
(they key the dict but carry no information the claims use). -/
structure MtgPack where
  content : List Slot
  deriving DecidableEq, Repr, Inhabited

/-- `r.index(rarity)` over the rarity ranking of `pack_sort_key`. -/
def rarityIndex (r : String) : Nat :=
  ["mythic", "rare", "uncommon", "common", "special", "bonus"].findIdx (· == r)

/-- `MtgCard.pack_sort_key` (mtg_card.py lines 222-245), booleans as 0/1. -/
def packSortKey (card : MtgCard) : Nat × Nat × Nat :=
  let isCommonLand := card.meta.types.contains "Land" && (card.meta.rarity == "common")
  let isBasicLand := card.meta.types.contains "Land" && card.meta.supertypes.contains "Basic"
  (isCommonLand.toNat + isBasicLand.toNat, card.foil.toNat, rarityIndex card.meta.rarity)

/-- Lexicographic comparison of sort keys, as Python compares tuples. -/
def packKeyLe (a b : MtgCard) : Bool :=
  let ka := packSortKey a
  let kb := packSortKey b
  decide (ka.1 < kb.1 ∨ (ka.1 = kb.1 ∧ (ka.2.1 < kb.2.1 ∨
    (ka.2.1 = kb.2.1 ∧ ka.2.2 ≤ kb.2.2))))

/-- `MtgPack.cards`: all slots' cards, sorted by `pack_sort_key`.
Python's `list.sort` is a stable sort by the key; the model uses the
stable insertion sort, which produces the same list. -/
def MtgPack.cards (p : MtgPack) : List MtgCard :=
  ((p.content.map Slot.cards).flatten).insertionSort (fun a b => packKeyLe a b = true)

/-- `MtgPack.has_duplicates` (mtg_pack.py lines 85-87): non-foil cards
sharing a name; `len(set(names))` is the length of `names.dedup`. -/
def has_duplicates (p : MtgPack) : Bool :=
  let names := (p.cards.filter (fun card => !card.foil)).map (fun card => card.meta.name)
  names.length != names.dedup.length

/-- `MtgPack.is_balanced` (mtg_pack.py lines 40-83); the second component
is the pack as left behind by the in-place repairs. -/
def is_balanced (oracle : Nat → Nat) (rebalance : Bool) (p : MtgPack) : Bool × MtgPack :=
  let res := checkSlots oracle rebalance p.content
  if res.1 then (!has_duplicates ⟨res.2⟩, ⟨res.2⟩)
  else (false, ⟨res.2⟩)

/-! ## Catalog data model (mtgjson_sql.py) -/

/-- The `BoosterType` enumeration (mtgjson_sql.py lines 28-60). -/
inductive BoosterType where
  | CUBE | DEFAULT | DRAFT | DRAFT_ARENA | PLAY | PLAY_ARENA
  | ARENA_1 | ARENA_2 | ARENA_3 | ARENA_4
  | SET | SET_JP | COLLECTOR | COLLECTOR_SAMPLE | COLLECTOR_SPECIAL
  | COLLECTOR_JP | JUMPSTART | JUMPSTART_V2 | STARTER | BEGINNER
  | TOURNAMENT | FAT_PACK | MTGO | PREMIUM | SIX | PRERELEASE
  deriving DecidableEq, Repr, Inhabited

/-- `SheetCardMeta`: one weighted card of a sheet; `id` stands for the
card uuid (`_uuid`). -/
structure SheetCard where
  id : Nat
  data : CardMeta
  weight : Nat
  deriving DecidableEq, Repr, Inhabited

/-- `SheetMeta`: a named weighted pool for one slot. -/
structure Sheet where
  name : String
  is_foil : Bool
  balance_colors : Bool
  cards : List SheetCard
  deriving DecidableEq, Repr, Inhabited

/-- `SheetMeta.total_weight`: the sum of the sheet's card weights. -/
def Sheet.total_weight (sh : Sheet) : Nat :=
  (sh.cards.map (fun x => x.weight)).sum

/-- `BoosterContentMeta`: a sheet plus the number of picks to draw. -/
structure BoosterContent where
  sheet : Sheet
  num_picks : Nat
  deriving DecidableEq, Repr, Inhabited

/-- `BoosterVariationMeta`: one weighted recipe of content entries. -/
structure BoosterVariation where
  weight : Nat
  content : List BoosterContent
  deriving DecidableEq, Repr, Inhabited

/-- `BoosterMeta`: one booster definition of a set. -/
structure BoosterMeta where
  name : BoosterType
  sheets : List Sheet
  variations : List BoosterVariation
  deriving DecidableEq, Repr, Inhabited

/-- `BoosterMeta.total_weight`: the sum of the variation weights. -/
def BoosterMeta.total_weight (bm : BoosterMeta) : Nat :=
  (bm.variations.map (fun v => v.weight)).sum

/-- `SetMeta`: a set with its booster dictionary (as an association list
in the dict's iteration order). -/
structure SetMeta where
  code : String
  name : String
  boosters : List (BoosterType × BoosterMeta)
  deriving DecidableEq, Repr, Inhabited

/-- `CardDb`: the catalog; `sets` models `data.sets`, `scryfall` models
the scryfall-id card index behind `get_card_by_scryfall_id`. -/
structure CardDb where
  sets : List (String × SetMeta)
  scryfall : List (String × CardMeta)
  deriving DecidableEq, Repr, Inhabited

/-! ## Booster-type resolution (generator.py lines 65-128) -/

/-- Python `str.upper()`, computed on the character list. -/
def strUpper (s : String) : String :=
  String.mk (s.data.map Char.toUpper)

/-- Python `str.startswith(p)`, computed on the character list. -/
def strStartsWith (s p : String) : Bool :=
  List.isPrefixOf p.data s.data

/-- Python `s.removeprefix("A-")` after a successful startswith test. -/
def strDropTwo (s : String) : String :=
  String.mk (s.data.drop 2)

/-- The body of `get_set_booster_meta_pair` after the `A-` prefix
handling: set lookup, booster-type selection and dictionary access.
`none` models the assertion failures and the `ValueError`. -/
def resolveBooster (db : CardDb) (oracle : Nat → Nat) (s : String)
    (bt : Option BoosterType) : Option (SetMeta × BoosterMeta) :=
  match db.sets.lookup s with
  | none => none
  | some sm =>
    let boosters := sm.boosters
    let chosen : Option BoosterType :=
      match bt with
      | some t =>
        if (boosters.lookup t).isSome then some t
        else if t = BoosterType.DRAFT_ARENA ∧ (boosters.lookup BoosterType.PLAY_ARENA).isSome
        then some BoosterType.PLAY_ARENA
        else none
      | none =>
        if s = "SIR" then
          some ([BoosterType.ARENA_1, BoosterType.ARENA_2, BoosterType.ARENA_3,
                 BoosterType.ARENA_4].getD (oracle 0 % 4) BoosterType.ARENA_1)
        else if s = "PIO" then
          some ([BoosterType.ARENA_1, BoosterType.ARENA_2,
                 BoosterType.ARENA_3].getD (oracle 0 % 3) BoosterType.ARENA_1)
        else if (boosters.lookup BoosterType.DRAFT).isSome then some BoosterType.DRAFT
        else if (boosters.lookup BoosterType.PLAY).isSome then some BoosterType.PLAY
        else if (boosters.lookup BoosterType.DEFAULT).isSome then some BoosterType.DEFAULT
        else boosters.head?.map Prod.fst
    match chosen with
    | none => none
    | some t => (boosters.lookup t).map (fun b => (sm, b))

/-- `MtgPackGenerator.get_set_booster_meta_pair` (generator.py lines
65-128), including the Arena `A-` prefix handling. -/
def get_set_booster_meta_pair (db : CardDb) (oracle : Nat → Nat) (set : String)
    (booster_type : Option BoosterType) : Option (SetMeta × BoosterMeta) :=
  let s0 := strUpper set
  if strStartsWith s0 "A-" then
    if booster_type = none ∨ booster_type = some BoosterType.DRAFT_ARENA ∨
        booster_type = some BoosterType.PLAY_ARENA then
      resolveBooster db oracle (strDropTwo s0) (some BoosterType.DRAFT_ARENA)
    else none
  else resolveBooster db oracle s0 booster_type

/-! ## Pack sampling (generator.py lines 154-230) -/

/-- Selection of an index with positive weight, the model of a weighted
`numpy.random.choice`: the oracle value picks among the indices whose
weight is positive (a zero-probability index is never drawn). -/
def pickPositiveIdx (r : Nat) (ws : List Nat) : Nat :=
  let pos := (List.range ws.length).filter (fun i => 0 < ws.getD i 0)
  pos.getD (r % pos.length) 0

/-- Weighted sampling without replacement from a sheet's card pool:
`k` draws, each an oracle choice among the remaining positive-weight
entries, the drawn entry removed from the pool by its uuid. -/
def sampleCards (oracle : Nat → Nat) : Nat → Nat → List SheetCard → List SheetCard
  | _, 0, _ => []
  | step, k + 1, pool =>
    let pos := pool.filter (fun x => 0 < x.weight)
    match pos with
    | [] => []
    | _ :: _ =>
      let chosen := pos.getD (oracle step % pos.length) default
      chosen :: sampleCards oracle (step + 1) k
        (pool.eraseP (fun x => x.id == chosen.id))

/-- The per-content-entry part of `_get_pack_internal` (generator.py
lines 175-207): 20 extra backup draws for a balance-required sheet, the
first `num_picks` draws as the slot's cards, the rest as its backups. -/
def buildSlot (oracle : Nat → Nat) (entry : BoosterContent) : Slot :=
  let numBackups := if entry.sheet.balance_colors then 20 else 0
  let picks := sampleCards oracle 0 (entry.num_picks + numBackups) entry.sheet.cards
  { cards := (picks.take entry.num_picks).map
      (fun sc => ⟨sc.id, sc.data, entry.sheet.is_foil⟩),
    backups := (picks.drop entry.num_picks).map
      (fun sc => ⟨sc.id, sc.data, entry.sheet.is_foil⟩),
    balance := entry.sheet.balance_colors }

/-- One sampling pass of `_get_pack_internal`: variation choice by
weight, one slot per content entry, plus the accumulated `balance` flag
of the chosen variation's sheets. -/
def attemptPack (sampleOracle : Nat → Nat → Nat) (bm : BoosterMeta) : MtgPack × Bool :=
  let vIdx := pickPositiveIdx (sampleOracle 0 0) (bm.variations.map (fun v => v.weight))
  let content := (bm.variations.getD vIdx default).content
  let slots := content.enum.map (fun p => buildSlot (sampleOracle (p.1 + 1)) p.2)
  (⟨slots⟩, content.any (fun e => e.sheet.balance_colors))

/-- `MtgPackGenerator._get_pack_internal` (generator.py lines 154-230).
The first argument of `sampleOracle` and `balOracle` is the current
iteration counter, giving every attempt its own randomness.  `none`
models the exceptions of booster resolution. -/
def get_pack_internal (db : CardDb) (resOracle : Nat → Nat)
    (sampleOracle : Nat → Nat → Nat → Nat) (balOracle : Nat → Nat → Nat) :
    Nat → String → Option BoosterType → Option MtgPack
  | it, s, bt =>
    match get_set_booster_meta_pair db resOracle s bt with
    | none => none
    | some (sm, bm) =>
      let pb := attemptPack (sampleOracle it) bm
      if !pb.2 then some pb.1
      else if it ≤ 1 then some pb.1
      else
        let res := is_balanced (balOracle it) true pb.1
        if res.1 then some res.2
        else
          match it with
          | 0 => none
          | it' + 1 =>
            get_pack_internal db resOracle sampleOracle balOracle it' sm.code (some bm.name)

/-- `MtgPackGenerator.get_pack` (generator.py lines 142-152):
`max_balancing_iterations` tries when balancing is on, one otherwise. -/
def get_pack (db : CardDb) (maxBalancingIterations : Nat) (resOracle : Nat → Nat)
    (sampleOracle : Nat → Nat → Nat → Nat) (balOracle : Nat → Nat → Nat)
    (s : String) (balance : Bool) (bt : Option BoosterType) : Option MtgPack :=
  get_pack_internal db resOracle sampleOracle balOracle
    (if balance then maxBalancingIterations else 1) s bt

/-! ## Cube packs (generator.py lines 329-375) -/

/-- One card record of a cube's mainboard; `finish` is the optional
`"finish"` entry of the card dict, tags are character lists because they
are compared against substrings of the slot specifications. -/
structure CubeCard where
  cardID : String
  tags : List (List Char)
  finish : Option String
  deriving DecidableEq, Repr, Inhabited

/-- One entry of a cube's `formats` list: `packs` is the list of packs
(each a list of slot-specification strings), `multiples` the optional
`"multiples"` entry (a missing key raises `KeyError`, hence `Option`). -/
structure CubeFormat where
  packs : List (List (List Char))
  multiples : Option Bool
  deriving DecidableEq, Repr, Inhabited

/-- A cube descriptor: the parts of the CubeCobra JSON that
`get_cube_pack` reads. -/
structure Cube where
  shortId : String
  name : String
  formats : List CubeFormat
  mainboard : List CubeCard
  deriving DecidableEq, Repr, Inhabited

/-- The per-slot assertion `slot.startswith("tag:") or slot.startswith("t:")`. -/
def slotSpecOk (sl : List Char) : Bool :=
  List.isPrefixOf ['t', 'a', 'g', ':'] sl || List.isPrefixOf ['t', ':'] sl

/-- `slot.split(":")[1].strip('"')`: the tag named by a slot spec. -/
def slotTag (sl : List Char) : List Char :=
  rstripChar '"' (lstripChar '"' ((splitChar ':' sl).getD 1 []))

/-- `collections.Counter` on a list of tags: keys in first-occurrence
order with their multiplicities. -/
def counterList (l : List (List Char)) : List (List Char × Nat) :=
  l.foldl
    (fun acc s =>
      if acc.any (fun p => p.1 == s) then
        acc.map (fun p => if p.1 == s then (p.1, p.2 + 1) else p)
      else acc ++ [(s, 1)]) []

/-- The tag-group loop of `get_cube_pack` (generator.py lines 342-347):
a mainboard card with a nonempty tag list is appended to the group of
every one of its tags that is a pack-format key, once per occurrence. -/
def groupFor (mainboard : List CubeCard) (k : List Char) : List CubeCard :=
  (mainboard.map (fun card =>
    if card.tags.isEmpty then []
    else (card.tags.filter (fun t => t == k)).map (fun _ => card))).flatten

/-- The fallback pack-format key `"cards"`. -/
def cardsKey : List Char := ['c', 'a', 'r', 'd', 's']

/-- The `try` block of `get_cube_pack`: pack format, replacement flag
and tag groups from the cube's first draft format, or the 15-card
fallback over the whole mainboard when any access fails. -/
def cubeSetup (cube : Cube) : List (List Char × Nat) × Bool × List (List Char × List CubeCard) :=
  let fallback := ([(cardsKey, 15)], false, [(cardsKey, cube.mainboard)])
  match cube.formats with
  | [] => fallback
  | fmt :: _ =>
    match fmt.packs with
    | [] => fallback
    | pack0 :: _ =>
      if pack0.all slotSpecOk then
        match fmt.multiples with
        | none => fallback
        | some rep =>
          let fmtCounts := counterList (pack0.map slotTag)
          (fmtCounts, rep,
            fmtCounts.map (fun p => (p.1, groupFor cube.mainboard p.1)))
      else fallback

/-- Uniform sampling without replacement: each draw removes the drawn
index from the pool (an exhausted pool ends the draw; numpy would
raise there). -/
def sampleNoRep (oracle : Nat → Nat) : Nat → Nat → List CubeCard → List CubeCard
  | _, 0, _ => []
  | step, k + 1, pool =>
    match pool with
    | [] => []
    | _ :: _ =>
      let idx := oracle step % pool.length
      (pool.getD idx default) :: sampleNoRep oracle (step + 1) k (pool.eraseIdx idx)

/-- `numpy.random.choice(group, num, replace=replace)`: uniform draws
with or without replacement. -/
def sampleCubeGroup (oracle : Nat → Nat) (replace : Bool) (num : Nat)
    (group : List CubeCard) : List CubeCard :=
  if replace then
    match group with
    | [] => []
    | _ :: _ => (List.range num).map (fun i => group.getD (oracle i % group.length) default)
  else sampleNoRep oracle 0 num group

/-- The sampled card dicts of one cube pack, per pack-format entry in
order (generator.py lines 355-357). -/
def cubeSampled (orc : Nat → Nat → Nat) (cube : Cube) : List CubeCard :=
  let setup := cubeSetup cube
  ((setup.1.enum.map (fun p =>
    sampleCubeGroup (orc p.1) setup.2.1 p.2.2
      ((setup.2.2.lookup p.2.1).getD []))).flatten)

/-- `MtgPackGenerator.get_cube_pack` (generator.py lines 329-375): the
sampled card ids are resolved against the scryfall index, unresolved
ids dropped by the `if card_data` guard, and the pack is one slot with
`balance = False`. -/
def get_cube_pack (db : CardDb) (orc : Nat → Nat → Nat) (cube : Cube) : MtgPack :=
  let packCards := (cubeSampled orc cube).filterMap (fun cd =>
    (db.scryfall.lookup cd.cardID).map (fun data =>
      (⟨0, data, ((cd.finish.getD "Non-foil") != "Non-foil")⟩ : MtgCard)))
  ⟨[⟨packCards, [], false⟩]⟩

/-! ## Expected value (generator.py lines 377-407) -/

/-- Python `round` to an integer: round half to even. -/
def roundHalfEven (q : ℚ) : ℤ :=
  let n := ⌊q⌋
  if q - n < 1 / 2 then n
  else if (1 : ℚ) / 2 < q - n then n + 1
  else if Even n then n else n + 1

/-- Python `round(x, 2)` on the exact rational model of floats. -/
def pyRound2 (q : ℚ) : ℚ :=
  (roundHalfEven (q * 100) : ℚ) / 100

/-- The per-sheet loop of `get_pack_ev` (generator.py lines 387-394):
a card contributes `price × weight` when its price is known, nonzero
(Python truthiness) and at least the bulk threshold; the denominator is
always the sheet's full total weight. -/
def sheetEvCode (price : Bool → CardMeta → Option ℚ) (bulk : ℚ) (sh : Sheet) : ℚ :=
  (sh.cards.foldl
    (fun acc sc =>
      match price sh.is_foil sc.data with
      | some p => if p ≠ 0 ∧ bulk ≤ p then acc + p * (sc.weight : ℚ) else acc
      | none => acc) 0) / (sh.total_weight : ℚ)

/-- `MtgPackGenerator.get_pack_ev` (generator.py lines 377-407), with
the price lookup injected as a function of foilness and card data. -/
def get_pack_ev (db : CardDb) (oracle : Nat → Nat) (price : Bool → CardMeta → Option ℚ)
    (bulk : ℚ) (s : String) (bt : Option BoosterType) : Option ℚ :=
  match get_set_booster_meta_pair db oracle s bt with
  | none => none
  | some (_, bm) =>
    let sheetsEv : List (String × ℚ) :=
      bm.sheets.map (fun sh => (sh.name, sheetEvCode price bulk sh))
    let boosterEv := bm.variations.foldl
      (fun acc v =>
        acc + ((v.content.map (fun e =>
            ((sheetsEv.lookup e.sheet.name).getD 0) * (e.num_picks : ℚ))).sum)
          * (v.weight : ℚ) / (bm.total_weight : ℚ)) 0
    some (pyRound2 boosterEv)

/-! ## Spec-side definitions

Definitions in this section are written from the specification's words
(not from the source); the theorems below compare them against the
source embeddings above. -/

/-- The five primary color characters. -/
def primaryChars : List Char := ['W', 'U', 'B', 'R', 'G']

/-- Well-formedness of a card's parsed mana for the bucket rule: a single
entry of `mana()` is a mono color or a two-distinct-color hybrid over the
five primary colors.  Every card of the real catalog satisfies this: the
parser only ever produces single primary letters or the concatenation of
the two distinct letters of a hybrid pair. -/
def manaWF (card : MtgCard) : Bool :=
  match card.mana with
  | [s] =>
    match s with
    | [c1] => primaryChars.contains c1
    | [c1, c2] => !(c1 == c2) && primaryChars.contains c1 && primaryChars.contains c2
    | _ => false
  | _ => true

/-- The bucketing rule in the spec's words: a card with exactly one
mono-colored color goes to that bucket in both modes; a two-color hybrid
goes to both its colors when hybrids are counted and to no bucket
otherwise; a card with no colored mana symbols goes to `C`; a card with
two or more independently-colored symbols goes to no bucket. -/
def specBucket (countHybrids : Bool) (k : Char) (card : MtgCard) : Bool :=
  match card.mana with
  | [] => k == 'C'
  | [s] =>
    match s with
    | [c1] => k == c1
    | [c1, c2] => countHybrids && (k == c1 || k == c2)
    | _ => false
  | _ => false

/-- The repair in the spec's words: a balance-required slot is repaired
exactly when rebalancing was requested and one of the five primary
colors is missing from its cards. -/
def repairedSlot (oracle : Nat → Nat) (rebalance : Bool) (slot : Slot) : Slot :=
  if rebalance ∧ missingColors (count_cards_colors slot.cards true) ≠ [] then
    (rebalanceRun oracle slot).2
  else slot

/-- The state of a slot after `is_balanced` has processed it: repaired
when balance-required, untouched otherwise. -/
def slotAfter (oracle : Nat → Nat) (rebalance : Bool) (slot : Slot) : Slot :=
  if slot.balance then repairedSlot oracle rebalance slot else slot

/-- The per-slot acceptance rule in the spec's words: a balance-required
slot (after repair, when requested) covers all five primary colors, has
at most 4 cards of any single color and contains a creature; a slot
whose first card is a non-foil uncommon has at most 2 cards per color;
any other slot is unconstrained. -/
def specSlotOk (oracle : Nat → Nat) (rebalance : Bool) (slot : Slot) : Prop :=
  if slot.balance then
    (∀ k ∈ primaryChars,
      1 ≤ ((count_cards_colors (repairedSlot oracle rebalance slot).cards true).get k).length) ∧
    maxCardsColors (repairedSlot oracle rebalance slot).cards ≤ 4 ∧
    containsCreature (repairedSlot oracle rebalance slot).cards = true
  else
    match slot.cards with
    | [] => True
    | c0 :: _ =>
      (c0.foil = false ∧ c0.meta.rarity = "uncommon") → maxCardsColors slot.cards ≤ 2

/-- The duplicate rule in the spec's words: no two non-foil cards of the
pack share a name (a foil copy is exempt). -/
def specNoDuplicates (p : MtgPack) : Prop :=
  ((((p.content.map Slot.cards).flatten).filter (fun card => !card.foil)).map
    (fun card => card.meta.name)).Nodup

/-- The acceptance rule of C1, in the spec's words, over the repaired
slots. -/
def specPackOk (oracle : Nat → Nat) (rebalance : Bool) (p : MtgPack) : Prop :=
  (∀ slot ∈ p.content, specSlotOk oracle rebalance slot) ∧
  specNoDuplicates ⟨p.content.map (slotAfter oracle rebalance)⟩

/-- Sample card for witnesses: a mono white creature (cost `{W}`). -/
def cardMonoW : MtgCard :=
  ⟨1, ⟨"Savannah Lions", "rare", ["Creature"], [],
    some ['{', 'W', '}'], [['W']]⟩, false⟩

/-- A white-blue hybrid card (cost `{W/U}`). -/
def cardHybridWU : MtgCard :=
  ⟨2, ⟨"Azorius Guildmage", "uncommon", ["Creature"], [],
    some ['{', 'W', '/', 'U', '}'], [['W'], ['U']]⟩, false⟩

/-- A colorless card (cost `{2}`). -/
def cardColorless : MtgCard :=
  ⟨3, ⟨"Mind Stone", "common", ["Artifact"], [],
    some ['{', '2', '}'], []⟩, false⟩

/-- An independently two-colored card (cost `{W}{U}`). -/
def cardMultiWU : MtgCard :=
  ⟨4, ⟨"Azorius Charm", "common", ["Instant"], [],
    some ['{', 'W', '}', '{', 'U', '}'], [['W'], ['U']]⟩, false⟩

/-- A mono-colored common creature for witness packs. -/
def creatureCard (n : Nat) (nm : String) (c : Char) : MtgCard :=
  ⟨n, ⟨nm, "common", ["Creature"], [], none, [[c]]⟩, false⟩

/-- A balanced one-slot sample pack: one common creature of each primary
color in a balance-required slot. -/
def packBalancedSample : MtgPack :=
  ⟨[⟨[creatureCard 11 "Alpha" 'W', creatureCard 12 "Beta" 'U',
      creatureCard 13 "Gamma" 'B', creatureCard 14 "Delta" 'R',
      creatureCard 15 "Epsilon" 'G'], [], true⟩]⟩

/-- A concrete three-card unbalanced sheet entry for the C4 witness. -/
def entrySample : BoosterContent :=
  ⟨⟨"plain", false, false,
    [⟨101, (creatureCard 0 "A" 'W').meta, 1⟩,
     ⟨102, (creatureCard 0 "B" 'U').meta, 1⟩,
     ⟨103, (creatureCard 0 "C" 'B').meta, 1⟩]⟩, 2⟩

/-- A booster offered only in the arena play type, for the C7
counterexample. -/
def boosterPlayArena : BoosterMeta := ⟨BoosterType.PLAY_ARENA, [], []⟩

/-- A set whose only booster is the arena play booster. -/
def setXXX : SetMeta := ⟨"XXX", "Set XXX", [(BoosterType.PLAY_ARENA, boosterPlayArena)]⟩

/-- A catalog holding only `setXXX`. -/
def dbXXX : CardDb := ⟨[("XXX", setXXX)], []⟩

/-- A balance-required 25-card sheet: one common creature of each primary
color followed by twenty colorless filler cards. -/
def balSheet : Sheet :=
  ⟨"bal", false, true,
    [⟨1, (creatureCard 0 "CW" 'W').meta, 1⟩,
     ⟨2, (creatureCard 0 "CU" 'U').meta, 1⟩,
     ⟨3, (creatureCard 0 "CB" 'B').meta, 1⟩,
     ⟨4, (creatureCard 0 "CR" 'R').meta, 1⟩,
     ⟨5, (creatureCard 0 "CG" 'G').meta, 1⟩] ++
    (List.range 20).map (fun i => ⟨6 + i, ⟨"F", "common", [], [], none, []⟩, 1⟩)⟩

/-- A two-card sheet holding two distinct printings with the same name,
so that sampling both of them always produces a duplicate pair. -/
def plainDupeSheet : Sheet :=
  ⟨"plain2", false, false,
    [⟨31, ⟨"Dupe", "common", [], [], none, []⟩, 1⟩,
     ⟨32, ⟨"Dupe", "common", [], [], none, []⟩, 1⟩]⟩

/-- The variation without any balance-required sheet (two picks from the
duplicate sheet: its packs never validate). -/
def variationV1 : BoosterVariation := ⟨1, [⟨plainDupeSheet, 2⟩]⟩

/-- The variation with the balance-required sheet (five picks). -/
def variationV2 : BoosterVariation := ⟨1, [⟨balSheet, 5⟩]⟩

/-- A draft booster whose sheets include a balance-required sheet, but
whose first variation contains none. -/
def boosterYYY : BoosterMeta :=
  ⟨BoosterType.DRAFT, [balSheet, plainDupeSheet], [variationV1, variationV2]⟩

/-- The set of `boosterYYY` and its catalog. -/
def setYYY : SetMeta := ⟨"YYY", "Set YYY", [(BoosterType.DRAFT, boosterYYY)]⟩

/-- A catalog holding only `setYYY`. -/
def dbYYY : CardDb := ⟨[("YYY", setYYY)], []⟩

/-- The C3 sampling oracle: the first attempt (counter 100) picks the
variation without balance sheets, later attempts pick the balanced
variation and always draw the first remaining card. -/
def c3SampleOracle : Nat → Nat → Nat → Nat :=
  fun it i _ => if it = 100 then 0 else if i = 0 then 1 else 0

/-- The pack produced by the first C3 attempt: two non-foil copies named
`"Dupe"` in one unbalanced slot. -/
def packDupe : MtgPack :=
  ⟨[⟨[⟨31, ⟨"Dupe", "common", [], [], none, []⟩, false⟩,
      ⟨32, ⟨"Dupe", "common", [], [], none, []⟩, false⟩], [], false⟩]⟩

/-- The per-card expected-value contribution in the spec's words: price
times weight when the price is known and at least the bulk threshold,
zero otherwise (a missing price contributes zero to the numerator). -/
def spec_sheet_ev (price : Bool → CardMeta → Option ℚ) (bulk : ℚ) (sh : Sheet) : ℚ :=
  ((sh.cards.map (fun sc =>
    match price sh.is_foil sc.data with
    | some p => if bulk ≤ p then p * (sc.weight : ℚ) else 0
    | none => 0)).sum) / (sh.total_weight : ℚ)

/-- The booster expected value in the spec's words: the variation-weight
average of the content entries' `sheetEV × pickCount` sums. -/
def spec_pack_ev (price : Bool → CardMeta → Option ℚ) (bulk : ℚ) (bm : BoosterMeta) : ℚ :=
  (bm.variations.map (fun v =>
    ((v.weight : ℚ) / (bm.total_weight : ℚ)) *
      ((v.content.map (fun e =>
        spec_sheet_ev price bulk e.sheet * (e.num_picks : ℚ))).sum))).sum

/-- A one-card sheet for the C8 counterexample. -/
def sheetEVone : Sheet :=
  ⟨"s", false, false, [⟨41, ⟨"Third", "rare", [], [], none, []⟩, 1⟩]⟩

/-- A booster with one variation taking one pick from `sheetEVone`. -/
def boosterEV : BoosterMeta :=
  ⟨BoosterType.DRAFT, [sheetEVone], [⟨1, [⟨sheetEVone, 1⟩]⟩]⟩

/-- The set and catalog of `boosterEV`. -/
def setZZZ : SetMeta := ⟨"ZZZ", "Set ZZZ", [(BoosterType.DRAFT, boosterEV)]⟩

/-- A catalog holding only `setZZZ`. -/
def dbZZZ : CardDb := ⟨[("ZZZ", setZZZ)], []⟩

/-- A price function valuing every card at a third of a unit. -/
def priceThird : Bool → CardMeta → Option ℚ := fun _ _ => some (1 / 3)

/-- The spec's cube grouping: a card belongs to group `k` when `k` is
the FIRST of its tags that names a pack-format group. -/
def specFirstTagGroup (keys : List (List Char)) (mainboard : List CubeCard)
    (k : List Char) : List CubeCard :=
  mainboard.filter (fun card => card.tags.find? (fun t => keys.contains t) == some k)

/-- Usability of a cube's declared draft format: a first format with a
first pack whose slots are all tag specifications and with a declared
multiples flag. -/
def cubeFormatUsable (cube : Cube) : Prop :=
  ∃ fmt rest p0 prest rep, cube.formats = fmt :: rest ∧ fmt.packs = p0 :: prest ∧
    p0.all slotSpecOk = true ∧ fmt.multiples = some rep

/-- A cube card tagged both `a` and `b` (first matching tag `a`). -/
def cardXab : CubeCard := ⟨"x", [['a'], ['b']], none⟩

/-- A cube card tagged only `a`. -/
def cardYa : CubeCard := ⟨"y", [['a']], none⟩

/-- A two-card cube whose format draws one card tagged `a` and one
tagged `b`, duplicates not allowed. -/
def cubeAB : Cube :=
  ⟨"cid", "Cube AB",
   [⟨[[['t', 'a', 'g', ':', 'a'], ['t', 'a', 'g', ':', 'b']]], some false⟩],
   [cardXab, cardYa]⟩

/-- A catalog resolving both cube card ids. -/
def dbCube : CardDb :=
  ⟨[], [("x", ⟨"Card X", "common", [], [], none, []⟩),
        ("y", ⟨"Card Y", "common", [], [], none, []⟩)]⟩

/-- A catalog resolving only the id `y`, so that sampled `x` cards are
dropped from cube packs. -/
def dbCubeMissing : CardDb :=
  ⟨[], [("y", ⟨"Card Y", "common", [], [], none, []⟩)]⟩

/-! ## Bucket lemmas -/

theorem colorBuckets_get_add (bs : ColorBuckets) (ch : Char) (card : MtgCard) (k : Char) :
    (bs.add ch card).get k =
      if k = ch ∧ ch ∈ colorKeys then bs.get k ++ [card] else bs.get k := by
  by_cases hm : ch ∈ colorKeys <;> by_cases hk : k = ch <;>
    simp [ColorBuckets.add, ColorBuckets.get, hm, hk]

theorem mem_colorBuckets_add (bs : ColorBuckets) (ch : Char) (card x : MtgCard) (k : Char)
    (h : x ∈ (bs.add ch card).get k) : x ∈ bs.get k ∨ x = card := by
  rw [colorBuckets_get_add] at h
  split_ifs at h with h1
  · rcases List.mem_append.1 h with h2 | h2
    · exact Or.inl h2
    · exact Or.inr (by simpa using h2)
  · exact Or.inl h

theorem mem_foldl_add_chars (card x : MtgCard) (k : Char) :
    ∀ (chars : List Char) (bs : ColorBuckets),
      x ∈ (chars.foldl (fun acc ch => acc.add ch card) bs).get k →
      x ∈ bs.get k ∨ x = card := by
  intro chars
  induction chars with
  | nil => intro bs h; exact Or.inl h
  | cons ch rest ih =>
    intro bs h
    rcases ih (bs.add ch card) h with h1 | h1
    · exact mem_colorBuckets_add bs ch card x k h1
    · exact Or.inr h1

theorem mem_addCardColors (cnt : Bool) (bs : ColorBuckets) (card x : MtgCard) (k : Char)
    (h : x ∈ (addCardColors cnt bs card).get k) : x ∈ bs.get k ∨ x = card := by
  unfold addCardColors at h
  split at h
  · split at h
    · exact mem_foldl_add_chars card x k _ bs h
    · split at h
      · exact mem_colorBuckets_add bs _ card x k h
      · exact Or.inl h
  · exact mem_colorBuckets_add bs 'C' card x k h
  · exact Or.inl h

theorem mem_count_cards_colors (cnt : Bool) (k : Char) :
    ∀ (l : List MtgCard) (bs : ColorBuckets) (x : MtgCard),
      x ∈ (l.foldl (addCardColors cnt) bs).get k → x ∈ bs.get k ∨ x ∈ l := by
  intro l
  induction l with
  | nil => intro bs x h; exact Or.inl h
  | cons card rest ih =>
    intro bs x h
    rcases ih (addCardColors cnt bs card) x h with h1 | h1
    · rcases mem_addCardColors cnt bs card x k h1 with h2 | h2
      · exact Or.inl h2
      · exact Or.inr (by simp [h2])
    · exact Or.inr (List.mem_cons_of_mem _ h1)

theorem mem_of_mem_count_bucket {cnt : Bool} {k : Char} {l : List MtgCard} {x : MtgCard}
    (h : x ∈ (count_cards_colors l cnt).get k) : x ∈ l := by
  rcases mem_count_cards_colors cnt k l ColorBuckets.empty x h with h1 | h1
  · simp [ColorBuckets.empty, ColorBuckets.get] at h1
  · exact h1

/-! ## Repair lemmas -/

theorem getLast_getD_mem {α : Type} [Inhabited α] (l : List α) (h : l ≠ []) :
    (l.getLast?).getD default ∈ l := by
  cases hl : l.getLast? with
  | none => rw [List.getLast?_eq_none_iff] at hl; exact absurd hl h
  | some a => simpa [hl] using List.mem_of_mem_getLast? hl

theorem popBucket_backups_mem (slot : Slot) (color : Char)
    (hne : ((count_cards_colors slot.backups true).get color).length ≠ 0) :
    popBucket (count_cards_colors slot.backups true) color ∈ slot.backups := by
  have hnil : (count_cards_colors slot.backups true).get color ≠ [] := by
    intro hc; rw [hc] at hne; simp at hne
  exact mem_of_mem_count_bucket (getLast_getD_mem _ hnil)

theorem swapSlot_backups_lt (r : Nat) (slot : Slot) (color : Char)
    (hne : ((count_cards_colors slot.backups true).get color).length ≠ 0) :
    (swapSlot r slot color).backups.length < slot.backups.length := by
  have hb := popBucket_backups_mem slot color hne
  apply List.length_filter_lt_length_iff_exists.mpr
  exact ⟨_, hb, by simp⟩

theorem swapSlot_cards_length (r : Nat) (slot : Slot) (color : Char) :
    (swapSlot r slot color).cards.length = slot.cards.length := by
  simp [swapSlot]

theorem swapSlot_mem_cards (r : Nat) (slot : Slot) (color : Char)
    (hne : ((count_cards_colors slot.backups true).get color).length ≠ 0)
    (x : MtgCard) (hx : x ∈ (swapSlot r slot color).cards) :
    x ∈ slot.cards ∨ x ∈ slot.backups := by
  simp only [swapSlot, List.mem_map] at hx
  obtain ⟨y, hy, hxy⟩ := hx
  split at hxy
  · exact Or.inr (hxy ▸ popBucket_backups_mem slot color hne)
  · exact Or.inl (hxy ▸ hy)

theorem swapSlot_mem_backups (r : Nat) (slot : Slot) (color : Char)
    (x : MtgCard) (hx : x ∈ (swapSlot r slot color).backups) : x ∈ slot.backups :=
  List.mem_of_mem_filter hx

theorem rebalance_commons_isSome (oracle : Nat → Nat) :
    ∀ (fuel : Nat) (slot : Slot), slot.backups.length < fuel →
      (rebalance_commons oracle fuel slot).isSome := by
  intro fuel
  induction fuel with
  | zero => intro slot h; omega
  | succ n ih =>
    intro slot h
    rw [rebalance_commons]
    split
    · simp
    · split_ifs with h1 h2
      · exact ih _ (by have := swapSlot_backups_lt (oracle n) slot _ h1; omega)
      · simp
      · simp

/-- C5: for every slot with a finite backup pool the repair recursion
terminates, whether it ultimately succeeds or fails: fuel
`backups.length + 1` always suffices, because every recursive call
permanently removes one card from the backup pool (for the generator's
20-card pools the depth is hence at most 21, a constant).  In particular
there is no input on which the recursion loops forever. -/
theorem rebalance_commons_terminates (oracle : Nat → Nat) (slot : Slot) :
    (rebalance_commons oracle (slot.backups.length + 1) slot).isSome :=
  rebalance_commons_isSome oracle (slot.backups.length + 1) slot (by omega)

theorem rebalance_commons_spec (oracle : Nat → Nat) :
    ∀ (fuel : Nat) (slot : Slot) (r : Bool × Slot),
      rebalance_commons oracle fuel slot = some r →
      r.2.cards.length = slot.cards.length ∧
      (∀ x ∈ r.2.cards, x ∈ slot.cards ∨ x ∈ slot.backups) ∧
      (∀ x ∈ r.2.backups, x ∈ slot.backups) ∧
      (r.1 = true ↔ missingColors (count_cards_colors r.2.cards true) = []) := by
  intro fuel
  induction fuel with
  | zero => intro slot r h; simp [rebalance_commons] at h
  | succ n ih =>
    intro slot r h
    rw [rebalance_commons] at h
    split at h
    · next heq =>
      obtain rfl : (true, slot) = r := by simpa using h
      exact ⟨rfl, fun x hx => Or.inl hx, fun x hx => hx, by simp [heq]⟩
    · next color rest heq =>
      split_ifs at h with h1 h2
      · obtain ⟨hlen, hmem, hbk, hiff⟩ := ih _ r h
        refine ⟨by rw [hlen, swapSlot_cards_length], ?_, ?_, hiff⟩
        · intro x hx
          rcases hmem x hx with hx1 | hx1
          · exact swapSlot_mem_cards _ slot color h1 x hx1
          · exact Or.inr (swapSlot_mem_backups _ slot color x hx1)
        · intro x hx
          exact swapSlot_mem_backups _ slot color x (hbk x hx)
      · obtain rfl : (false, slot) = r := by simpa using h
        exact ⟨rfl, fun x hx => Or.inl hx, fun x hx => hx, by simp [heq]⟩
      · obtain rfl : (false, slot) = r := by simpa using h
        exact ⟨rfl, fun x hx => Or.inl hx, fun x hx => hx, by simp [heq]⟩

/-! ## C2: the color bucketing rule -/

theorem primaryChars_subset_colorKeys : ∀ c ∈ primaryChars, c ∈ colorKeys := by decide

theorem addCardColors_get_spec (cnt : Bool) (bs : ColorBuckets) (card : MtgCard) (k : Char)
    (hw : manaWF card = true) :
    (addCardColors cnt bs card).get k =
      bs.get k ++ (if specBucket cnt k card then [card] else []) := by
  unfold manaWF at hw
  cases hm : card.mana with
  | nil =>
    simp only [addCardColors, specBucket, hm]
    rw [colorBuckets_get_add]
    by_cases hk : k = 'C' <;> simp [hk, colorKeys]
  | cons s rest =>
    cases rest with
    | cons s2 r2 => simp [addCardColors, specBucket, hm]
    | nil =>
      rw [hm] at hw
      cases s with
      | nil => simp at hw
      | cons c1 t =>
        cases t with
        | nil =>
          have hc1 : c1 ∈ colorKeys := by
            apply primaryChars_subset_colorKeys
            simpa using hw
          have : addCardColors cnt bs card = bs.add c1 card := by
            cases cnt <;> simp [addCardColors, hm]
          rw [this, colorBuckets_get_add]
          simp only [specBucket, hm]
          by_cases hk : k = c1 <;> simp [hk, hc1]
        | cons c2 t2 =>
          cases t2 with
          | cons c3 t3 => simp at hw
          | nil =>
            simp only [Bool.and_eq_true, Bool.not_eq_eq_eq_not, Bool.not_true,
              beq_eq_false_iff_ne, ne_eq] at hw
            obtain ⟨⟨hne, hp1⟩, hp2⟩ := hw
            have hc1 : c1 ∈ colorKeys :=
              primaryChars_subset_colorKeys _ (List.elem_iff.mp hp1)
            have hc2 : c2 ∈ colorKeys :=
              primaryChars_subset_colorKeys _ (List.elem_iff.mp hp2)
            cases cnt with
            | false => simp [addCardColors, specBucket, hm]
            | true =>
              simp only [addCardColors, hm, List.foldl_cons, List.foldl_nil, if_true]
              rw [colorBuckets_get_add, colorBuckets_get_add]
              simp only [specBucket, hm]
              by_cases hk1 : k = c1 <;> by_cases hk2 : k = c2 <;>
                simp_all [List.append_assoc]

theorem foldl_addCardColors_spec (cnt : Bool) (k : Char) :
    ∀ (l : List MtgCard) (bs : ColorBuckets), (∀ c ∈ l, manaWF c = true) →
      (l.foldl (addCardColors cnt) bs).get k = bs.get k ++ l.filter (specBucket cnt k) := by
  intro l
  induction l with
  | nil => intro bs _; simp
  | cons card rest ih =>
    intro bs hw
    have h1 : manaWF card = true := hw card (by simp)
    have h2 : ∀ c ∈ rest, manaWF c = true := fun c hc => hw c (by simp [hc])
    simp only [List.foldl_cons]
    rw [ih (addCardColors cnt bs card) h2, addCardColors_get_spec cnt bs card k h1,
      List.filter_cons]
    by_cases hb : specBucket cnt k card = true <;> simp [hb]

/-- C2: for every card list and both values of `countHybrids`,
`count_cards_colors` buckets the cards exactly per the spec rule: the
bucket of key `k` is the sublist of cards that `specBucket` sends to `k`
(mono cards to their color, hybrids to both colors only when counted,
colorless to `C`, independent multicolor to no bucket). -/
theorem count_cards_colors_buckets (cnt : Bool) (l : List MtgCard) (k : Char)
    (hw : ∀ c ∈ l, manaWF c = true) :
    (count_cards_colors l cnt).get k = l.filter (specBucket cnt k) := by
  unfold count_cards_colors
  rw [foldl_addCardColors_spec cnt k l ColorBuckets.empty hw]
  simp [ColorBuckets.empty, ColorBuckets.get]

/-- Witness for C2 at a concrete card list covering all four cases. -/
theorem count_cards_colors_buckets_witness :
    (∀ c ∈ [cardMonoW, cardHybridWU, cardColorless, cardMultiWU], manaWF c = true) ∧
    (count_cards_colors [cardMonoW, cardHybridWU, cardColorless, cardMultiWU] true).get 'W' =
      [cardMonoW, cardHybridWU] ∧
    (count_cards_colors [cardMonoW, cardHybridWU, cardColorless, cardMultiWU] false).get 'W' =
      [cardMonoW] :=
  ⟨by decide,
   by rw [count_cards_colors_buckets true _ 'W' (by decide)]; decide,
   by rw [count_cards_colors_buckets false _ 'W' (by decide)]; decide⟩

/-! ## C1: the pack validation rule -/

theorem missingColors_eq_nil_iff (bs : ColorBuckets) :
    missingColors bs = [] ↔ ∀ k ∈ primaryChars, 1 ≤ (bs.get k).length := by
  rw [missingColors, List.filter_eq_nil_iff]
  constructor
  · intro h k hk
    have h1 := h k (primaryChars_subset_colorKeys k hk)
    have h2 : k ≠ 'C' := by
      have hall : ∀ c ∈ primaryChars, c ≠ 'C' := by decide
      exact hall k hk
    have h3 : ¬((bs.get k).length = 0) := by simpa [h2] using h1
    omega
  · intro h k hk
    by_cases hC : k = 'C'
    · simp [hC]
    · have hkP : k ∈ primaryChars := by
        have hall : ∀ c ∈ colorKeys, c ≠ 'C' → c ∈ primaryChars := by decide
        exact hall k hk hC
      have h1 := h k hkP
      have h3 : ¬((bs.get k).length = 0) := by omega
      simp [hC, h3]

theorem take5_missing_iff (bs : ColorBuckets) :
    (((bs.countsList.take 5).filter (fun v => v == 0)).length = 0) ↔
      missingColors bs = [] := by
  rw [List.length_eq_zero, List.filter_eq_nil_iff, missingColors, List.filter_eq_nil_iff]
  simp only [ColorBuckets.countsList, colorKeys, ColorBuckets.get, List.map_cons,
    List.map_nil, List.take, List.mem_cons, List.not_mem_nil]
  constructor
  · intro h k hk
    rcases hk with rfl | rfl | rfl | rfl | rfl | rfl | hk <;> simp_all [ColorBuckets.get]
  · intro h v hv
    have hW := h 'W' (by simp)
    have hU := h 'U' (by simp)
    have hB := h 'B' (by simp)
    have hR := h 'R' (by simp)
    have hG := h 'G' (by simp)
    simp only [ColorBuckets.get] at hW hU hB hR hG
    rcases hv with rfl | rfl | rfl | rfl | rfl | hv <;> simp_all

theorem rebalanceRun_spec (o : Nat → Nat) (slot : Slot) :
    (rebalanceRun o slot).2.cards.length = slot.cards.length ∧
    (∀ x ∈ (rebalanceRun o slot).2.cards, x ∈ slot.cards ∨ x ∈ slot.backups) ∧
    (∀ x ∈ (rebalanceRun o slot).2.backups, x ∈ slot.backups) ∧
    ((rebalanceRun o slot).1 = true ↔
      missingColors (count_cards_colors (rebalanceRun o slot).2.cards true) = []) := by
  cases hr : rebalance_commons o (slot.backups.length + 1) slot with
  | none =>
    have := rebalance_commons_terminates o slot
    rw [hr] at this
    simp at this
  | some r =>
    have hs := rebalance_commons_spec o _ slot r hr
    unfold rebalanceRun
    rw [hr]
    simpa using hs

theorem balanced_commons_eq (o : Nat → Nat) (reb : Bool) (slot : Slot) :
    balanced_commons o reb slot =
      if missingColors (count_cards_colors slot.cards true) = [] then (true, slot)
      else if reb then rebalanceRun o slot else (false, slot) := by
  show (if (((count_cards_colors slot.cards true).countsList.take 5).filter
      (fun v => v == 0)).length ≠ 0 then
      (if reb then rebalanceRun o slot else (false, slot)) else (true, slot)) = _
  by_cases h1 : (((count_cards_colors slot.cards true).countsList.take 5).filter
      (fun v => v == 0)).length = 0
  · rw [if_neg (by omega), if_pos ((take5_missing_iff _).mp h1)]
  · rw [if_pos (by omega), if_neg (fun hc => h1 ((take5_missing_iff _).mpr hc))]

theorem balanced_commons_snd (o : Nat → Nat) (reb : Bool) (slot : Slot) :
    (balanced_commons o reb slot).2 = repairedSlot o reb slot := by
  rw [balanced_commons_eq]
  unfold repairedSlot
  by_cases h1 : missingColors (count_cards_colors slot.cards true) = []
  · simp [h1]
  · cases reb <;> simp [h1]

theorem balanced_commons_fst (o : Nat → Nat) (reb : Bool) (slot : Slot) :
    ((balanced_commons o reb slot).1 = true) ↔
      missingColors (count_cards_colors (repairedSlot o reb slot).cards true) = [] := by
  rw [balanced_commons_eq]
  unfold repairedSlot
  by_cases h1 : missingColors (count_cards_colors slot.cards true) = []
  · simp [h1]
  · cases reb with
    | false => simp [h1]
    | true =>
      simp only [h1, if_false, if_true, ne_eq, not_false_eq_true, and_self, true_and]
      have := (rebalanceRun_spec o slot).2.2.2
      simpa [h1] using this

theorem checkSlot_snd (o : Nat → Nat) (reb : Bool) (slot : Slot) :
    (checkSlot o reb slot).2 = slotAfter o reb slot := by
  unfold checkSlot slotAfter
  by_cases hb : slot.balance
  · simp only [hb, if_true]
    split_ifs <;> exact balanced_commons_snd o reb slot
  · simp only [hb, Bool.false_eq_true, if_false]
    split
    · rfl
    · split_ifs <;> rfl

theorem checkSlot_fst (o : Nat → Nat) (reb : Bool) (slot : Slot) :
    ((checkSlot o reb slot).1 = true) ↔ specSlotOk o reb slot := by
  unfold checkSlot specSlotOk
  by_cases hb : slot.balance
  · simp only [hb, if_true]
    have hfst := (balanced_commons_fst o reb slot).trans
      (missingColors_eq_nil_iff (count_cards_colors (repairedSlot o reb slot).cards true))
    rw [balanced_commons_snd]
    by_cases h1 : (balanced_commons o reb slot).1 = true
    · simp only [h1, Bool.not_true, Bool.false_eq_true, if_false]
      by_cases h2 : maxCardsColors (repairedSlot o reb slot).cards > 4
      · rw [if_pos h2]
        apply iff_of_false
        · simp
        · rintro ⟨_, hmax, _⟩; omega
      · rw [if_neg h2]
        by_cases h3 : containsCreature (repairedSlot o reb slot).cards = true
        · rw [if_neg (by simp [h3])]
          exact iff_of_true rfl ⟨hfst.mp h1, by omega, h3⟩
        · rw [if_pos (by simp [Bool.not_eq_true] at h3; simp [h3])]
          apply iff_of_false
          · simp
          · rintro ⟨_, _, hcr⟩; exact h3 hcr
    · have h1f : (balanced_commons o reb slot).1 = false := by
        simpa using h1
      rw [h1f]
      simp only [Bool.not_false, if_true]
      apply iff_of_false
      · simp
      · rintro ⟨hcov, _, _⟩
        exact h1 (hfst.mpr hcov)
  · simp only [hb, Bool.false_eq_true, if_false]
    cases hcs : slot.cards with
    | nil => simp
    | cons c0 t =>
      dsimp only
      by_cases hcond : (!c0.foil && (c0.meta.rarity == "uncommon")) = true
      · rw [if_pos hcond]
        have hcond2 : c0.foil = false ∧ c0.meta.rarity = "uncommon" := by
          simpa [Bool.and_eq_true, Bool.not_eq_true'] using hcond
        by_cases h2 : maxCardsColors (c0 :: t) > 2
        · rw [if_pos h2]
          apply iff_of_false
          · simp
          · intro hcon
            have := hcon hcond2
            omega
        · rw [if_neg h2]
          exact iff_of_true rfl (fun _ => by omega)
      · rw [if_neg hcond]
        have hcond2 : ¬(c0.foil = false ∧ c0.meta.rarity = "uncommon") := by
          intro hcon
          exact hcond (by simp [hcon.1, hcon.2])
        exact iff_of_true rfl (fun hcon => absurd hcon hcond2)

theorem checkSlots_fst (o : Nat → Nat) (reb : Bool) :
    ∀ l : List Slot, ((checkSlots o reb l).1 = true) ↔
      ∀ s ∈ l, (checkSlot o reb s).1 = true := by
  intro l
  induction l with
  | nil => simp [checkSlots]
  | cons s rest ih =>
    by_cases h : (checkSlot o reb s).1 = true
    · simp [checkSlots, h, ih]
    · simp only [checkSlots, h, Bool.false_eq_true, if_false]
      apply iff_of_false
      · simp
      · intro hcon
        exact h (hcon s (by simp))

theorem checkSlots_snd (o : Nat → Nat) (reb : Bool) :
    ∀ l : List Slot, (∀ s ∈ l, (checkSlot o reb s).1 = true) →
      (checkSlots o reb l).2 = l.map (slotAfter o reb) := by
  intro l
  induction l with
  | nil => intro _; simp [checkSlots]
  | cons s rest ih =>
    intro h
    have h1 : (checkSlot o reb s).1 = true := h s (by simp)
    simp only [checkSlots, h1, if_true, List.map_cons]
    rw [checkSlot_snd, ih (fun x hx => h x (by simp [hx]))]

theorem dedup_length_eq_iff {α : Type} [DecidableEq α] (l : List α) :
    l.dedup.length = l.length ↔ l.Nodup := by
  constructor
  · intro h
    have he := List.Sublist.eq_of_length l.dedup_sublist h
    rw [← he]
    exact l.nodup_dedup
  · intro h
    rw [List.dedup_eq_self.mpr h]

theorem has_duplicates_false_iff (p : MtgPack) :
    (has_duplicates p = false) ↔ specNoDuplicates p := by
  have hperm : p.cards.Perm ((p.content.map Slot.cards).flatten) :=
    List.perm_insertionSort _ _
  have hp2 : ((p.cards.filter (fun card => !card.foil)).map
      (fun card => card.meta.name)).Perm
      ((((p.content.map Slot.cards).flatten).filter (fun card => !card.foil)).map
        (fun card => card.meta.name)) :=
    List.Perm.map _ (List.Perm.filter _ hperm)
  unfold has_duplicates specNoDuplicates
  rw [bne_eq_false_iff_eq]
  constructor
  · intro h
    exact hp2.nodup_iff.mp ((dedup_length_eq_iff _).mp h.symm)
  · intro h
    exact ((dedup_length_eq_iff _).mpr (hp2.nodup_iff.mpr h)).symm

theorem is_balanced_fst_eq (o : Nat → Nat) (reb : Bool) (p : MtgPack) :
    ((is_balanced o reb p).1 = true) ↔
      ((checkSlots o reb p.content).1 = true ∧
        has_duplicates ⟨(checkSlots o reb p.content).2⟩ = false) := by
  unfold is_balanced
  by_cases h : (checkSlots o reb p.content).1 = true <;> simp [h]

/-- C1: `is_balanced` accepts a pack (under any randomness) exactly when,
after running the repair on balance-required slots when rebalancing is
requested, every balance-required slot covers all five primary colors,
has at most 4 cards of a single color and contains a creature; every
slot whose cards are non-foil uncommons has at most 2 cards of a single
color; and the pack contains no two non-foil cards with identical names
(a pair with one foil copy is exempt).  The nonemptiness hypothesis
keeps the model inside the source's domain (Python indexes the first
card of each non-balance slot). -/
theorem is_balanced_iff_spec (oracle : Nat → Nat) (rebalance : Bool) (p : MtgPack)
    (_hne : ∀ slot ∈ p.content, slot.cards ≠ []) :
    ((is_balanced oracle rebalance p).1 = true) ↔ specPackOk oracle rebalance p := by
  rw [is_balanced_fst_eq]
  unfold specPackOk
  constructor
  · rintro ⟨h1, h2⟩
    have hall := (checkSlots_fst oracle rebalance p.content).mp h1
    refine ⟨fun s hs => (checkSlot_fst oracle rebalance s).mp (hall s hs), ?_⟩
    rw [checkSlots_snd oracle rebalance p.content hall] at h2
    exact (has_duplicates_false_iff _).mp h2
  · rintro ⟨h1, h2⟩
    have hall : ∀ s ∈ p.content, (checkSlot oracle rebalance s).1 = true :=
      fun s hs => (checkSlot_fst oracle rebalance s).mpr (h1 s hs)
    refine ⟨(checkSlots_fst oracle rebalance p.content).mpr hall, ?_⟩
    rw [checkSlots_snd oracle rebalance p.content hall]
    exact (has_duplicates_false_iff _).mpr h2

/-- Witness for C1 at a concrete balanced pack. -/
theorem is_balanced_iff_spec_witness :
    (∀ slot ∈ packBalancedSample.content, slot.cards ≠ []) ∧
    (((is_balanced (fun _ => 0) true packBalancedSample).1 = true) ↔
      specPackOk (fun _ => 0) true packBalancedSample) :=
  ⟨by decide, is_balanced_iff_spec (fun _ => 0) true packBalancedSample (by decide)⟩

/-! ## C6: repair never adds or removes cards -/

theorem slotAfter_spec (o : Nat → Nat) (reb : Bool) (s : Slot) :
    (slotAfter o reb s).cards.length = s.cards.length ∧
    (∀ x ∈ (slotAfter o reb s).cards, x ∈ s.cards ∨ x ∈ s.backups) := by
  unfold slotAfter repairedSlot
  split_ifs with h1 h2
  · exact ⟨(rebalanceRun_spec o s).1, (rebalanceRun_spec o s).2.1⟩
  · exact ⟨rfl, fun x hx => Or.inl hx⟩
  · exact ⟨rfl, fun x hx => Or.inl hx⟩

theorem checkSlots_forall2 (o : Nat → Nat) (reb : Bool) :
    ∀ l : List Slot,
      List.Forall₂ (fun s s' => s'.cards.length = s.cards.length ∧
        ∀ x ∈ s'.cards, x ∈ s.cards ∨ x ∈ s.backups) l (checkSlots o reb l).2 := by
  intro l
  induction l with
  | nil => simp [checkSlots]
  | cons s rest ih =>
    have hhead : (checkSlot o reb s).2.cards.length = s.cards.length ∧
        ∀ x ∈ (checkSlot o reb s).2.cards, x ∈ s.cards ∨ x ∈ s.backups := by
      rw [checkSlot_snd]
      exact slotAfter_spec o reb s
    by_cases h : (checkSlot o reb s).1 = true
    · simp only [checkSlots, h, if_true]
      exact List.Forall₂.cons hhead ih
    · simp only [checkSlots, h, Bool.false_eq_true, if_false]
      refine List.Forall₂.cons hhead ?_
      exact List.forall₂_same.mpr (fun x _ => ⟨rfl, fun y hy => Or.inl hy⟩)

theorem checkSlots_false_of_mem (o : Nat → Nat) (reb : Bool) (l : List Slot)
    (slot : Slot) (hs : slot ∈ l) (hf : ¬(checkSlot o reb slot).1 = true) :
    (checkSlots o reb l).1 = false := by
  have := (checkSlots_fst o reb l).not.mpr (fun hall => hf (hall slot hs))
  simpa using this

/-- C6: the repair never adds or removes cards.  For every pack and all
randomness: (a) each slot of the pack returned by `is_balanced` has
exactly as many cards as before, and all of its cards come from the
slot's original primary cards or its backup pool (each repair step only
swaps one primary card for one backup card); (b) a slot already covering
the five primary colors is left untouched — repair only ever fixes a
missing color; and (c) an excess color (more than 4 of one color) or a
missing creature in a repaired balance slot remains a hard failure of
the whole pack. -/
theorem repair_preserves_pack (oracle : Nat → Nat) (rebalance : Bool) (p : MtgPack) :
    (List.Forall₂ (fun s s' => s'.cards.length = s.cards.length ∧
        ∀ x ∈ s'.cards, x ∈ s.cards ∨ x ∈ s.backups)
      p.content ((is_balanced oracle rebalance p).2).content) ∧
    (∀ slot : Slot, missingColors (count_cards_colors slot.cards true) = [] →
      (checkSlot oracle rebalance slot).2 = slot) ∧
    (∀ slot ∈ p.content, slot.balance = true →
      (maxCardsColors (repairedSlot oracle true slot).cards > 4 ∨
        containsCreature (repairedSlot oracle true slot).cards = false) →
      (is_balanced oracle true p).1 = false) := by
  refine ⟨?_, ?_, ?_⟩
  · have h2 := checkSlots_forall2 oracle rebalance p.content
    unfold is_balanced
    by_cases h : (checkSlots oracle rebalance p.content).1 = true <;> simpa [h] using h2
  · intro slot hm
    rw [checkSlot_snd]
    unfold slotAfter repairedSlot
    simp [hm]
  · intro slot hs hb hviol
    have hf : ¬(checkSlot oracle true slot).1 = true := by
      rw [checkSlot_fst]
      unfold specSlotOk
      rw [if_pos hb]
      rintro ⟨_, hmax, hcr⟩
      rcases hviol with hv | hv
      · omega
      · rw [hcr] at hv
        exact Bool.true_eq_false.mp hv
    have hcf := checkSlots_false_of_mem oracle true p.content slot hs hf
    have := (is_balanced_fst_eq oracle true p).not.mpr (by simp [hcf])
    simpa using this

/-- Witness for C6 at a concrete pack. -/
theorem repair_preserves_pack_witness :
    (List.Forall₂ (fun s s' => s'.cards.length = s.cards.length ∧
        ∀ x ∈ s'.cards, x ∈ s.cards ∨ x ∈ s.backups)
      packBalancedSample.content
      ((is_balanced (fun _ => 0) true packBalancedSample).2).content) ∧
    (∀ slot : Slot, missingColors (count_cards_colors slot.cards true) = [] →
      (checkSlot (fun _ => 0) true slot).2 = slot) ∧
    (∀ slot ∈ packBalancedSample.content, slot.balance = true →
      (maxCardsColors (repairedSlot (fun _ => 0) true slot).cards > 4 ∨
        containsCreature (repairedSlot (fun _ => 0) true slot).cards = false) →
      (is_balanced (fun _ => 0) true packBalancedSample).1 = false) :=
  repair_preserves_pack (fun _ => 0) true packBalancedSample

/-! ## C4: weighted sampling without replacement -/

theorem getD_mod_mem {α : Type} [Inhabited α] (l : List α) (h : l ≠ []) (r : Nat) :
    l.getD (r % l.length) default ∈ l := by
  have hlen : 0 < l.length := List.length_pos.mpr h
  have hmod : r % l.length < l.length := Nat.mod_lt _ hlen
  rw [List.getD_eq_getElem?_getD, List.getElem?_eq_getElem hmod]
  simp

theorem eraseP_by_id (pool : List SheetCard) (c : SheetCard) (hc : c ∈ pool)
    (hnd : (pool.map (fun x => x.id)).Nodup) :
    ∃ l₁ l₂, pool = l₁ ++ c :: l₂ ∧
      pool.eraseP (fun x => x.id == c.id) = l₁ ++ l₂ ∧
      (∀ y ∈ l₁ ++ l₂, y.id ≠ c.id) := by
  obtain ⟨a, l₁, l₂, _hl1, hpa, hdecomp, herase⟩ :=
    @List.exists_of_eraseP SheetCard (fun x => x.id == c.id) pool c hc
      (beq_self_eq_true c.id)
  have haid : a.id = c.id := by simpa using hpa
  have hnd2 : (l₁.map (fun x => x.id) ++ a.id :: l₂.map (fun x => x.id)).Nodup := by
    have := hnd
    rw [hdecomp] at this
    simpa using this
  rw [List.nodup_append] at hnd2
  obtain ⟨hndl1, hndl2, hdisj⟩ := hnd2
  have hnotl2 : a.id ∉ l₂.map (fun x => x.id) := (List.nodup_cons.mp hndl2).1
  have hnotl1 : a.id ∉ l₁.map (fun x => x.id) := fun hmem =>
    hdisj hmem (by simp)
  have hac : a = c := by
    rcases List.mem_append.mp (hdecomp ▸ hc) with hcmem | hcmem
    · exact absurd (haid ▸ List.mem_map_of_mem (fun x => x.id) hcmem) hnotl1
    · rcases List.mem_cons.mp hcmem with hceq | hcmem2
      · exact hceq.symm
      · exact absurd (haid ▸ List.mem_map_of_mem (fun x => x.id) hcmem2) hnotl2
  subst hac
  refine ⟨l₁, l₂, hdecomp, by simpa using herase, ?_⟩
  intro y hy hyid
  rcases List.mem_append.mp hy with hy1 | hy1
  · exact hnotl1 (hyid ▸ List.mem_map_of_mem (fun x => x.id) hy1)
  · exact hnotl2 (hyid ▸ List.mem_map_of_mem (fun x => x.id) hy1)

theorem sampleCards_mem (oracle : Nat → Nat) :
    ∀ (k step : Nat) (pool : List SheetCard) (x : SheetCard),
      x ∈ sampleCards oracle step k pool → x ∈ pool ∧ 0 < x.weight := by
  intro k
  induction k with
  | zero => intro step pool x h; simp [sampleCards] at h
  | succ n ih =>
    intro step pool x h
    rw [sampleCards] at h
    split at h
    · simp at h
    · next hpos =>
      rcases List.mem_cons.mp h with heq | hrest
      · have hchosen : (pool.filter (fun y => 0 < y.weight)).getD
            (oracle step % (pool.filter (fun y => 0 < y.weight)).length) default ∈
            pool.filter (fun y => 0 < y.weight) :=
          getD_mod_mem _ (by simp [hpos]) _
        rw [heq]
        have hf := List.mem_filter.mp hchosen
        exact ⟨hf.1, by simpa using hf.2⟩
      · obtain ⟨hmem, hw⟩ := ih (step + 1) _ x hrest
        exact ⟨(List.eraseP_sublist pool).subset hmem, hw⟩

theorem sampleCards_nodup (oracle : Nat → Nat) :
    ∀ (k step : Nat) (pool : List SheetCard),
      (pool.map (fun x => x.id)).Nodup →
      ((sampleCards oracle step k pool).map (fun x => x.id)).Nodup := by
  intro k
  induction k with
  | zero => intro step pool _; simp [sampleCards]
  | succ n ih =>
    intro step pool hnd
    rw [sampleCards]
    split
    · simp
    · next hpos =>
      set chosen := (pool.filter (fun y => 0 < y.weight)).getD
        (oracle step % (pool.filter (fun y => 0 < y.weight)).length) default with hchdef
      have hchosen : chosen ∈ pool := by
        have hm : chosen ∈ pool.filter (fun y => 0 < y.weight) := by
          rw [hchdef]
          apply getD_mod_mem
          simp [hpos]
        exact (List.mem_filter.mp hm).1
      obtain ⟨l₁, l₂, _hdec, herase, hid⟩ := eraseP_by_id pool chosen hchosen hnd
      have hnd' : ((pool.eraseP (fun x => x.id == chosen.id)).map (fun x => x.id)).Nodup :=
        List.Nodup.sublist (List.Sublist.map _ (List.eraseP_sublist pool)) hnd
      simp only [List.map_cons, List.nodup_cons]
      refine ⟨?_, ih (step + 1) _ hnd'⟩
      intro hmem
      simp only [List.mem_map] at hmem
      obtain ⟨y, hy, hyid⟩ := hmem
      have hym : y ∈ pool.eraseP (fun x => x.id == chosen.id) :=
        (sampleCards_mem oracle n (step + 1) _ y hy).1
      rw [herase] at hym
      exact hid y hym hyid

theorem sampleCards_length (oracle : Nat → Nat) :
    ∀ (k step : Nat) (pool : List SheetCard),
      (pool.map (fun x => x.id)).Nodup →
      k ≤ (pool.filter (fun x => 0 < x.weight)).length →
      (sampleCards oracle step k pool).length = k := by
  intro k
  induction k with
  | zero => intro step pool _ _; simp [sampleCards]
  | succ n ih =>
    intro step pool hnd hk
    rw [sampleCards]
    split
    · next hpos =>
      rw [hpos] at hk
      simp at hk
    · next hpos =>
      set chosen := (pool.filter (fun y => 0 < y.weight)).getD
        (oracle step % (pool.filter (fun y => 0 < y.weight)).length) default with hchdef
      have hchm : chosen ∈ pool.filter (fun y => 0 < y.weight) := by
        rw [hchdef]
        apply getD_mod_mem
        simp [hpos]
      have hchosen : chosen ∈ pool := (List.mem_filter.mp hchm).1
      have hchw : (0 < chosen.weight) := by simpa using (List.mem_filter.mp hchm).2
      obtain ⟨l₁, l₂, hdec, herase, _hid⟩ := eraseP_by_id pool chosen hchosen hnd
      have hnd' : ((pool.eraseP (fun x => x.id == chosen.id)).map (fun x => x.id)).Nodup :=
        List.Nodup.sublist (List.Sublist.map _ (List.eraseP_sublist pool)) hnd
      have hcount : ((pool.eraseP (fun x => x.id == chosen.id)).filter
          (fun x => 0 < x.weight)).length + 1 =
          (pool.filter (fun x => 0 < x.weight)).length := by
        rw [herase, hdec, List.filter_append, List.filter_append, List.filter_cons]
        simp [hchw]
        omega
      simp only [List.length_cons]
      rw [ih (step + 1) _ hnd' (by omega)]

/-- C4: one sampling pass for a booster content entry draws exactly
`pickCount + backupCount` cards from the entry's sheet, where
`backupCount` is 20 for a balance-required sheet and 0 otherwise; the
draws are pairwise distinct (by card uuid) and every drawn card is a
sheet card of positive weight; the first `pickCount` draws become the
slot's primary cards and the remaining draws its backup pool.  The
hypotheses say the sheet's card uuids are distinct and that the sheet
holds enough positive-weight cards (numpy raises otherwise). -/
theorem buildSlot_sampling (oracle : Nat → Nat) (entry : BoosterContent)
    (hnd : (entry.sheet.cards.map (fun x => x.id)).Nodup)
    (hEnough : entry.num_picks + (if entry.sheet.balance_colors then 20 else 0) ≤
      (entry.sheet.cards.filter (fun x => 0 < x.weight)).length) :
    (sampleCards oracle 0 (entry.num_picks +
        (if entry.sheet.balance_colors then 20 else 0)) entry.sheet.cards).length =
      entry.num_picks + (if entry.sheet.balance_colors then 20 else 0) ∧
    ((sampleCards oracle 0 (entry.num_picks +
        (if entry.sheet.balance_colors then 20 else 0)) entry.sheet.cards).map
      (fun x => x.id)).Nodup ∧
    (∀ x ∈ sampleCards oracle 0 (entry.num_picks +
        (if entry.sheet.balance_colors then 20 else 0)) entry.sheet.cards,
      x ∈ entry.sheet.cards ∧ 0 < x.weight) ∧
    (buildSlot oracle entry).cards =
      ((sampleCards oracle 0 (entry.num_picks +
        (if entry.sheet.balance_colors then 20 else 0)) entry.sheet.cards).take
          entry.num_picks).map (fun sc => ⟨sc.id, sc.data, entry.sheet.is_foil⟩) ∧
    (buildSlot oracle entry).backups =
      ((sampleCards oracle 0 (entry.num_picks +
        (if entry.sheet.balance_colors then 20 else 0)) entry.sheet.cards).drop
          entry.num_picks).map (fun sc => ⟨sc.id, sc.data, entry.sheet.is_foil⟩) ∧
    (buildSlot oracle entry).cards.length = entry.num_picks ∧
    (buildSlot oracle entry).backups.length =
      (if entry.sheet.balance_colors then 20 else 0) := by
  have hlen := sampleCards_length oracle
    (entry.num_picks + (if entry.sheet.balance_colors then 20 else 0)) 0
    entry.sheet.cards hnd hEnough
  refine ⟨hlen, sampleCards_nodup oracle _ 0 entry.sheet.cards hnd,
    fun x hx => sampleCards_mem oracle _ 0 entry.sheet.cards x hx, rfl, rfl, ?_, ?_⟩
  · simp only [buildSlot, List.length_map, List.length_take, hlen]
    omega
  · simp only [buildSlot, List.length_map, List.length_drop, hlen]
    omega

/-- Witness for C4 at a concrete three-card sheet entry. -/
theorem buildSlot_sampling_witness :
    ((entrySample.sheet.cards.map (fun x => x.id)).Nodup ∧
      entrySample.num_picks + (if entrySample.sheet.balance_colors then 20 else 0) ≤
        (entrySample.sheet.cards.filter (fun x => 0 < x.weight)).length) ∧
    ((buildSlot (fun _ => 0) entrySample).cards.length = entrySample.num_picks ∧
      (buildSlot (fun _ => 0) entrySample).backups.length =
        (if entrySample.sheet.balance_colors then 20 else 0)) :=
  ⟨⟨by decide, by decide⟩,
   ⟨(buildSlot_sampling (fun _ => 0) entrySample (by decide) (by decide)).2.2.2.2.2.1,
    (buildSlot_sampling (fun _ => 0) entrySample (by decide) (by decide)).2.2.2.2.2.2⟩⟩

/-! ## C7: booster-type resolution for explicit requests -/

/-- C7 counterexample: requesting the arena draft type from a set that
only offers the arena play type does not fail — `get_set_booster_meta_pair`
silently substitutes the arena play booster for the explicitly requested
arena draft type. -/
theorem booster_resolution_substitution_counterexample :
    get_set_booster_meta_pair dbXXX (fun _ => 0) "XXX"
        (some BoosterType.DRAFT_ARENA) = some (setXXX, boosterPlayArena) ∧
    boosterPlayArena.name ≠ BoosterType.DRAFT_ARENA := by
  constructor
  · decide
  · decide

/-- C7 amended: for an explicitly requested booster type on a set code
without the `A-` prefix, resolution returns exactly the requested type
when the set offers it and fails otherwise — except that a request for
the arena draft type falls back to the arena play type when that one is
offered.  (With the `A-` prefix the request is first coerced to arena
draft.) -/
theorem get_set_booster_meta_pair_explicit (db : CardDb) (oracle : Nat → Nat)
    (s : String) (t : BoosterType)
    (hA : ¬(strStartsWith (strUpper s) "A-" = true)) :
    match db.sets.lookup (strUpper s) with
    | none => get_set_booster_meta_pair db oracle s (some t) = none
    | some sm =>
      match sm.boosters.lookup t with
      | some bm => get_set_booster_meta_pair db oracle s (some t) = some (sm, bm)
      | none =>
        if t = BoosterType.DRAFT_ARENA then
          match sm.boosters.lookup BoosterType.PLAY_ARENA with
          | some bm => get_set_booster_meta_pair db oracle s (some t) = some (sm, bm)
          | none => get_set_booster_meta_pair db oracle s (some t) = none
        else get_set_booster_meta_pair db oracle s (some t) = none := by
  have hmain : get_set_booster_meta_pair db oracle s (some t) =
      resolveBooster db oracle (strUpper s) (some t) := by
    unfold get_set_booster_meta_pair
    rw [if_neg hA]
  cases hset : db.sets.lookup (strUpper s) with
  | none =>
    simp only []
    rw [hmain]
    unfold resolveBooster
    rw [hset]
  | some sm =>
    simp only []
    cases hbt : sm.boosters.lookup t with
    | some bm =>
      simp only []
      rw [hmain]
      unfold resolveBooster
      rw [hset]
      simp [hbt]
    | none =>
      simp only []
      by_cases hT : t = BoosterType.DRAFT_ARENA
      · rw [if_pos hT]
        subst hT
        cases hpa : sm.boosters.lookup BoosterType.PLAY_ARENA with
        | some bm =>
          simp only []
          rw [hmain]
          unfold resolveBooster
          rw [hset]
          simp [hbt, hpa]
        | none =>
          simp only []
          rw [hmain]
          unfold resolveBooster
          rw [hset]
          simp [hbt, hpa]
      · rw [if_neg hT]
        rw [hmain]
        unfold resolveBooster
        rw [hset]
        simp [hbt, hT]

/-- Witness for the amended C7 at the concrete catalog. -/
theorem get_set_booster_meta_pair_explicit_witness :
    (¬(strStartsWith (strUpper "XXX") "A-" = true)) ∧
    (match dbXXX.sets.lookup (strUpper "XXX") with
    | none => get_set_booster_meta_pair dbXXX (fun _ => 0) "XXX"
        (some BoosterType.DRAFT_ARENA) = none
    | some sm =>
      match sm.boosters.lookup BoosterType.DRAFT_ARENA with
      | some bm => get_set_booster_meta_pair dbXXX (fun _ => 0) "XXX"
          (some BoosterType.DRAFT_ARENA) = some (sm, bm)
      | none =>
        if BoosterType.DRAFT_ARENA = BoosterType.DRAFT_ARENA then
          match sm.boosters.lookup BoosterType.PLAY_ARENA with
          | some bm => get_set_booster_meta_pair dbXXX (fun _ => 0) "XXX"
              (some BoosterType.DRAFT_ARENA) = some (sm, bm)
          | none => get_set_booster_meta_pair dbXXX (fun _ => 0) "XXX"
              (some BoosterType.DRAFT_ARENA) = none
        else get_set_booster_meta_pair dbXXX (fun _ => 0) "XXX"
            (some BoosterType.DRAFT_ARENA) = none) :=
  ⟨by decide,
   get_set_booster_meta_pair_explicit dbXXX (fun _ => 0) "XXX"
     BoosterType.DRAFT_ARENA (by decide)⟩

/-! ## C3: the retry loop of get_pack -/

/-- C3 counterexample: with balancing on and a full budget of 100
iterations, for a booster that does have a balance-required sheet,
`get_pack` returns the very first candidate unvalidated because the
variation drawn for that candidate contains no balance-required sheet —
even though the candidate fails validation (a duplicate pair) and the
next attempt's candidate would have validated.  The retry decision is
made per chosen variation, not per booster. -/
theorem get_pack_unvalidated_counterexample :
    get_pack dbYYY 100 (fun _ => 0) c3SampleOracle (fun _ _ => 0) "YYY" true none =
      some packDupe ∧
    (is_balanced (fun _ => 0) true packDupe).1 = false ∧
    (boosterYYY.sheets.any (fun sh => sh.balance_colors)) = true ∧
    (is_balanced (fun _ => 0) true (attemptPack (c3SampleOracle 99) boosterYYY).1).1 = true := by
  refine ⟨by decide, by decide, by decide, by decide⟩

/-- One-step characterization of the retry loop, for the amended C3.
Under a stable booster resolution: a candidate whose chosen variation
has no balance-required sheet is returned immediately and
unconditionally; at budget 1 (or 0) the candidate is returned without
validation; otherwise a validating candidate is returned repaired, a
failing one triggers a retry with a decremented budget; and the loop
always returns a pack — exhaustion never raises. -/
theorem get_pack_internal_characterization (db : CardDb) (resO : Nat → Nat)
    (oS : Nat → Nat → Nat → Nat) (oB : Nat → Nat → Nat) (sm : SetMeta) (bm : BoosterMeta)
    (hstable : get_set_booster_meta_pair db resO sm.code (some bm.name) = some (sm, bm)) :
    ∀ (it : Nat) (s : String) (bt : Option BoosterType),
      get_set_booster_meta_pair db resO s bt = some (sm, bm) →
      ((attemptPack (oS it) bm).2 = false →
        get_pack_internal db resO oS oB it s bt = some (attemptPack (oS it) bm).1) ∧
      (it ≤ 1 →
        get_pack_internal db resO oS oB it s bt = some (attemptPack (oS it) bm).1) ∧
      ((attemptPack (oS it) bm).2 = true → 1 < it →
        (is_balanced (oB it) true (attemptPack (oS it) bm).1).1 = true →
        get_pack_internal db resO oS oB it s bt =
          some (is_balanced (oB it) true (attemptPack (oS it) bm).1).2) ∧
      ((attemptPack (oS it) bm).2 = true → 1 < it →
        (is_balanced (oB it) true (attemptPack (oS it) bm).1).1 = false →
        get_pack_internal db resO oS oB it s bt =
          get_pack_internal db resO oS oB (it - 1) sm.code (some bm.name)) ∧
      (get_pack_internal db resO oS oB it s bt).isSome := by
  have hstep : ∀ (it : Nat) (s : String) (bt : Option BoosterType),
      get_set_booster_meta_pair db resO s bt = some (sm, bm) →
      ((attemptPack (oS it) bm).2 = false →
        get_pack_internal db resO oS oB it s bt = some (attemptPack (oS it) bm).1) ∧
      (it ≤ 1 →
        get_pack_internal db resO oS oB it s bt = some (attemptPack (oS it) bm).1) ∧
      ((attemptPack (oS it) bm).2 = true → 1 < it →
        (is_balanced (oB it) true (attemptPack (oS it) bm).1).1 = true →
        get_pack_internal db resO oS oB it s bt =
          some (is_balanced (oB it) true (attemptPack (oS it) bm).1).2) ∧
      ((attemptPack (oS it) bm).2 = true → 1 < it →
        (is_balanced (oB it) true (attemptPack (oS it) bm).1).1 = false →
        get_pack_internal db resO oS oB it s bt =
          get_pack_internal db resO oS oB (it - 1) sm.code (some bm.name)) := by
    intro it s bt hres
    refine ⟨?_, ?_, ?_, ?_⟩
    · intro hb
      rw [get_pack_internal, hres]
      simp [hb]
    · intro hit
      rw [get_pack_internal, hres]
      by_cases hb : (attemptPack (oS it) bm).2 = true
      · simp [hb, hit]
      · simp [Bool.not_eq_true] at hb
        simp [hb]
    · intro hb hit hval
      rw [get_pack_internal, hres]
      simp [hb, hval, Nat.not_le.mpr hit]
    · intro hb hit hval
      rw [get_pack_internal, hres]
      rcases it with _ | it'
      · omega
      · simp [hb, hval, Nat.not_le.mpr hit]
  intro it
  induction it with
  | zero =>
    intro s bt hres
    obtain ⟨h1, h2, h3, h4⟩ := hstep 0 s bt hres
    refine ⟨h1, h2, h3, h4, ?_⟩
    rw [h2 (by omega)]
    rfl
  | succ n ih =>
    intro s bt hres
    obtain ⟨h1, h2, h3, h4⟩ := hstep (n + 1) s bt hres
    refine ⟨h1, h2, h3, h4, ?_⟩
    by_cases hb : (attemptPack (oS (n + 1)) bm).2 = true
    · by_cases hit : n + 1 ≤ 1
      · rw [h2 hit]; rfl
      · by_cases hval : (is_balanced (oB (n + 1)) true (attemptPack (oS (n + 1)) bm).1).1 = true
        · rw [h3 hb (by omega) hval]; rfl
        · rw [h4 hb (by omega) (by simpa using hval)]
          have := (ih sm.code (some bm.name) hstable).2.2.2.2
          simpa using this
    · simp only [Bool.not_eq_true] at hb
      rw [h1 hb]
      rfl

/-- Witness for the amended C3 at the concrete catalog (the stable
resolution and the first-attempt resolution are discharged by
evaluation). -/
theorem get_pack_internal_characterization_witness :
    (get_set_booster_meta_pair dbYYY (fun _ => 0) setYYY.code (some boosterYYY.name) =
      some (setYYY, boosterYYY)) ∧
    (get_set_booster_meta_pair dbYYY (fun _ => 0) "YYY" none =
      some (setYYY, boosterYYY)) ∧
    ((attemptPack (c3SampleOracle 100) boosterYYY).2 = false →
      get_pack_internal dbYYY (fun _ => 0) c3SampleOracle (fun _ _ => 0) 100 "YYY" none =
        some (attemptPack (c3SampleOracle 100) boosterYYY).1) :=
  ⟨by decide, by decide,
   (get_pack_internal_characterization dbYYY (fun _ => 0) c3SampleOracle (fun _ _ => 0)
     setYYY boosterYYY (by decide) 100 "YYY" none (by decide)).1⟩

/-! ## C8: expected value -/

theorem foldl_add_eq_sum {α : Type} (g : α → ℚ) :
    ∀ (l : List α) (a : ℚ), l.foldl (fun acc x => acc + g x) a = a + (l.map g).sum := by
  intro l
  induction l with
  | nil => intro a; simp
  | cons x rest ih =>
    intro a
    simp only [List.foldl_cons, List.map_cons, List.sum_cons]
    rw [ih]
    ring

theorem lookup_map_name (f : Sheet → ℚ) :
    ∀ (sheets : List Sheet) (sh : Sheet), (sheets.map Sheet.name).Nodup → sh ∈ sheets →
      (sheets.map (fun s2 => (s2.name, f s2))).lookup sh.name = some (f sh) := by
  intro sheets
  induction sheets with
  | nil => intro sh _ h; simp at h
  | cons s0 rest ih =>
    intro sh hnd hm
    simp only [List.map_cons, List.nodup_cons] at hnd
    rcases List.mem_cons.mp hm with rfl | hm2
    · simp [List.lookup]
    · have hne : ¬(sh.name == s0.name) = true := by
        intro hbeq
        exact hnd.1 (by
          rw [← (by simpa using hbeq : sh.name = s0.name)]
          exact List.mem_map_of_mem Sheet.name hm2)
      simp only [List.map_cons, List.lookup, hne]
      exact ih sh hnd.2 hm2

theorem sheetEvCode_eq_spec (price : Bool → CardMeta → Option ℚ) (bulk : ℚ) (sh : Sheet) :
    sheetEvCode price bulk sh = spec_sheet_ev price bulk sh := by
  unfold sheetEvCode spec_sheet_ev
  congr 1
  have hfun : (fun (acc : ℚ) (sc : SheetCard) =>
      match price sh.is_foil sc.data with
      | some p => if p ≠ 0 ∧ bulk ≤ p then acc + p * (sc.weight : ℚ) else acc
      | none => acc) =
      (fun (acc : ℚ) (sc : SheetCard) => acc +
        match price sh.is_foil sc.data with
        | some p => if bulk ≤ p then p * (sc.weight : ℚ) else 0
        | none => 0) := by
    funext acc sc
    cases hp : price sh.is_foil sc.data with
    | none => simp
    | some p =>
      by_cases h0 : p = 0
      · subst h0
        by_cases hb : bulk ≤ 0 <;> simp [hb]
      · by_cases hb : bulk ≤ p <;> simp [h0, hb]
  rw [hfun, foldl_add_eq_sum, zero_add]

/-- C8 counterexample: the claim omits the final rounding.  At a
one-card booster whose card is priced one third, the spec formula gives
`1/3` while `get_pack_ev` returns `0.33` — the two differ. -/
theorem get_pack_ev_rounding_counterexample :
    get_pack_ev dbZZZ (fun _ => 0) priceThird 0 "ZZZ" none = some (33 / 100) ∧
    spec_pack_ev priceThird 0 boosterEV = 1 / 3 ∧
    (33 / 100 : ℚ) ≠ 1 / 3 := by
  have hfloor : (⌊(1 : ℚ)/3 * 100⌋ : ℤ) = 33 := by
    rw [Int.floor_eq_iff]
    norm_num
  refine ⟨?_, ?_, by norm_num⟩
  · have hres : get_set_booster_meta_pair dbZZZ (fun _ => 0) "ZZZ" none =
        some (setZZZ, boosterEV) := by decide
    unfold get_pack_ev
    rw [hres]
    simp only [boosterEV, sheetEVone, sheetEvCode, priceThird, Sheet.total_weight,
      BoosterMeta.total_weight, List.foldl_cons, List.foldl_nil, List.map_cons,
      List.map_nil, List.sum_cons, List.sum_nil, List.lookup, pyRound2, roundHalfEven]
    norm_num [List.lookup, hfloor]
  · simp only [spec_pack_ev, spec_sheet_ev, boosterEV, sheetEVone, priceThird,
      Sheet.total_weight, BoosterMeta.total_weight, List.map_cons, List.map_nil,
      List.sum_cons, List.sum_nil]
    norm_num

/-- C8 amended: `get_pack_ev` returns the spec's expected-value formula
rounded (half to even) to two decimal places: the variation-weight
average over variations of the `sheetEV × pickCount` sums, where a
sheet's EV counts `price × weight` only for cards with a known price at
or above the bulk threshold while every card's weight stays in the
denominator.  The hypotheses pin the resolved booster and state the
catalog well-formedness the dict keying relies on: distinct sheet names
and content sheets drawn from the booster's sheet list. -/
theorem get_pack_ev_eq_rounded_spec (db : CardDb) (oracle : Nat → Nat)
    (price : Bool → CardMeta → Option ℚ) (bulk : ℚ) (s : String) (bt : Option BoosterType)
    (sm : SetMeta) (bm : BoosterMeta)
    (hres : get_set_booster_meta_pair db oracle s bt = some (sm, bm))
    (hnames : (bm.sheets.map Sheet.name).Nodup)
    (hmem : ∀ v ∈ bm.variations, ∀ e ∈ v.content, e.sheet ∈ bm.sheets) :
    get_pack_ev db oracle price bulk s bt = some (pyRound2 (spec_pack_ev price bulk bm)) := by
  unfold get_pack_ev
  rw [hres]
  dsimp only
  have hbooster : bm.variations.foldl
      (fun acc v => acc + ((v.content.map (fun e =>
        (((bm.sheets.map (fun sh => (sh.name, sheetEvCode price bulk sh))).lookup
          e.sheet.name).getD 0) * (e.num_picks : ℚ))).sum)
        * (v.weight : ℚ) / (bm.total_weight : ℚ)) 0 = spec_pack_ev price bulk bm := by
    rw [foldl_add_eq_sum
      (fun v => ((v.content.map (fun e =>
        (((bm.sheets.map (fun sh => (sh.name, sheetEvCode price bulk sh))).lookup
          e.sheet.name).getD 0) * (e.num_picks : ℚ))).sum)
        * (v.weight : ℚ) / (bm.total_weight : ℚ)) bm.variations 0, zero_add]
    unfold spec_pack_ev
    rw [List.map_eq_map_iff.mpr]
    intro v hv
    have hinner : v.content.map (fun e =>
        (((bm.sheets.map (fun sh => (sh.name, sheetEvCode price bulk sh))).lookup
          e.sheet.name).getD 0) * (e.num_picks : ℚ)) =
        v.content.map (fun e => spec_sheet_ev price bulk e.sheet * (e.num_picks : ℚ)) := by
      rw [List.map_eq_map_iff.mpr]
      intro e he
      rw [lookup_map_name (sheetEvCode price bulk) bm.sheets e.sheet hnames
        (hmem v hv e he)]
      rw [Option.getD_some, sheetEvCode_eq_spec]
    rw [hinner]
    ring
  rw [hbooster]

/-- Witness for the amended C8 at the concrete one-card booster. -/
theorem get_pack_ev_eq_rounded_spec_witness :
    (get_set_booster_meta_pair dbZZZ (fun _ => 0) "ZZZ" none = some (setZZZ, boosterEV)) ∧
    ((boosterEV.sheets.map Sheet.name).Nodup) ∧
    (∀ v ∈ boosterEV.variations, ∀ e ∈ v.content, e.sheet ∈ boosterEV.sheets) ∧
    (get_pack_ev dbZZZ (fun _ => 0) priceThird 0 "ZZZ" none =
      some (pyRound2 (spec_pack_ev priceThird 0 boosterEV))) :=
  ⟨by decide, by decide, by decide,
   get_pack_ev_eq_rounded_spec dbZZZ (fun _ => 0) priceThird 0 "ZZZ" none setZZZ
     boosterEV (by decide) (by decide) (by decide)⟩

/-! ## C9: cube packs -/

/-- C9 counterexample: grouping is NOT by the first matching tag.  In a
cube with slots `a` and `b` and a card X tagged `[a, b]` (first matching
tag `a`), the code places X in group `b` as well, whereas the spec's
first-tag grouping leaves group `b` empty; consequently a generated pack
(multiples disallowed) can hold two copies of X, one drawn from each
group — impossible under first-tag grouping. -/
theorem cube_grouping_counterexample :
    (cubeSetup cubeAB).2.2.lookup ['b'] = some [cardXab] ∧
    specFirstTagGroup [['a'], ['b']] cubeAB.mainboard ['b'] = [] ∧
    ([cardXab] : List CubeCard) ≠ [] ∧
    (get_cube_pack dbCube (fun _ _ => 0) cubeAB).content.map
      (fun s2 => s2.cards.map (fun card => card.meta.name)) =
      [["Card X", "Card X"]] := by
  refine ⟨by decide, by decide, by decide, by decide⟩

/-- C9 amended: `get_cube_pack` groups each mainboard card under EVERY
one of its tags that names a pack-format group (not only the first);
with a usable declared draft format the pack format is the counted slot
list, the sampling replacement flag is exactly the cube's multiples
flag, and each group holds the cards carrying that tag; without a usable
format it falls back to a single 15-card slot over the whole mainboard
sampled without replacement; and the resulting pack consists of one slot
with color balancing off. -/
theorem get_cube_pack_characterization :
    (∀ (mainboard : List CubeCard) (k : List Char) (card : CubeCard),
      card ∈ groupFor mainboard k ↔ card ∈ mainboard ∧ card.tags ≠ [] ∧ k ∈ card.tags) ∧
    (∀ (cube : Cube) (fmt : CubeFormat) (rest : List CubeFormat)
        (p0 : List (List Char)) (prest : List (List (List Char))) (rep : Bool),
      cube.formats = fmt :: rest → fmt.packs = p0 :: prest →
      p0.all slotSpecOk = true → fmt.multiples = some rep →
      cubeSetup cube = (counterList (p0.map slotTag), rep,
        (counterList (p0.map slotTag)).map
          (fun p => (p.1, groupFor cube.mainboard p.1)))) ∧
    (∀ cube : Cube, ¬cubeFormatUsable cube →
      cubeSetup cube = ([(cardsKey, 15)], false, [(cardsKey, cube.mainboard)])) ∧
    (∀ (db : CardDb) (orc : Nat → Nat → Nat) (cube : Cube),
      (get_cube_pack db orc cube).content.map (fun s2 => s2.balance) = [false]) := by
  refine ⟨?_, ?_, ?_, ?_⟩
  · intro mainboard k card
    constructor
    · intro h
      simp only [groupFor, List.mem_flatten, List.mem_map] at h
      obtain ⟨inner, ⟨c, hc, hinner⟩, hcard⟩ := h
      rw [← hinner] at hcard
      split at hcard
      · simp at hcard
      · next hne =>
        simp only [List.mem_map] at hcard
        obtain ⟨t, ht, hteq⟩ := hcard
        subst hteq
        refine ⟨hc, by simpa using hne, ?_⟩
        have := List.mem_filter.mp ht
        have heq : t = k := by simpa using this.2
        exact heq ▸ this.1
    · rintro ⟨hmem, hne, hk⟩
      simp only [groupFor, List.mem_flatten, List.mem_map]
      refine ⟨(card.tags.filter (fun t => t == k)).map (fun _ => card),
        ⟨card, hmem, ?_⟩, ?_⟩
      · rw [if_neg (by simpa using hne)]
      · simp only [List.mem_map]
        exact ⟨k, List.mem_filter.mpr ⟨hk, by simp⟩, trivial⟩
  · intro cube fmt rest p0 prest rep hf hp hall hm
    unfold cubeSetup
    rw [hf]
    dsimp only
    rw [hp]
    dsimp only
    rw [if_pos hall, hm]
  · intro cube hnu
    unfold cubeSetup
    cases hf : cube.formats with
    | nil => rfl
    | cons fmt rest =>
      dsimp only
      cases hp : fmt.packs with
      | nil => rfl
      | cons p0 prest =>
        dsimp only
        by_cases hall : p0.all slotSpecOk = true
        · rw [if_pos hall]
          cases hm : fmt.multiples with
          | none => rfl
          | some rep =>
            exact absurd ⟨fmt, rest, p0, prest, rep, hf, hp, hall, hm⟩ hnu
        · rw [if_neg hall]
  · intro db orc cube
    rfl

/-- Witness for the amended C9 at the concrete two-card cube. -/
theorem get_cube_pack_characterization_witness :
    (cubeAB.formats = [⟨[[['t', 'a', 'g', ':', 'a'], ['t', 'a', 'g', ':', 'b']]],
        some false⟩] ∧
      ([[['t', 'a', 'g', ':', 'a'], ['t', 'a', 'g', ':', 'b']]] :
        List (List (List Char))) = [[['t', 'a', 'g', ':', 'a'], ['t', 'a', 'g', ':', 'b']]] ∧
      ([['t', 'a', 'g', ':', 'a'], ['t', 'a', 'g', ':', 'b']] :
        List (List Char)).all slotSpecOk = true) ∧
    cubeSetup cubeAB =
      (counterList (([['t', 'a', 'g', ':', 'a'], ['t', 'a', 'g', ':', 'b']] :
          List (List Char)).map slotTag), false,
        (counterList (([['t', 'a', 'g', ':', 'a'], ['t', 'a', 'g', ':', 'b']] :
          List (List Char)).map slotTag)).map
            (fun p => (p.1, groupFor cubeAB.mainboard p.1))) :=
  ⟨⟨rfl, rfl, by decide⟩,
   get_cube_pack_characterization.2.1 cubeAB _ [] _ [] false rfl rfl (by decide) rfl⟩

/-! ## C10: missing scryfall ids in cube packs -/

/-- C10: a sampled cube card whose id is absent from the scryfall index
is silently dropped: the returned pack's single slot holds exactly the
resolvable sampled cards, so its size never exceeds the number of
samples, and with the concrete cube whose ids are unresolvable the pack
comes out smaller than the two cards its format specifies — no error is
raised anywhere (the embedding is a total function). -/
theorem cube_missing_id_omitted :
    (∀ (db : CardDb) (orc : Nat → Nat → Nat) (cube : Cube),
      (get_cube_pack db orc cube).content =
        [⟨(cubeSampled orc cube).filterMap (fun cd =>
          (db.scryfall.lookup cd.cardID).map (fun data =>
            (⟨0, data, ((cd.finish.getD "Non-foil") != "Non-foil")⟩ : MtgCard))), [], false⟩] ∧
      ((get_cube_pack db orc cube).content.map (fun s2 => s2.cards.length)).sum ≤
        (cubeSampled orc cube).length) ∧
    (((cubeSetup cubeAB).1.map (fun p => p.2)).sum = 2 ∧
      (get_cube_pack dbCubeMissing (fun _ _ => 0) cubeAB).content.map
        (fun s2 => s2.cards.length) = [0]) := by
  refine ⟨?_, by decide, by decide⟩
  intro db orc cube
  refine ⟨rfl, ?_⟩
  simp only [get_cube_pack, List.map_cons, List.map_nil, List.sum_cons, List.sum_nil,
    add_zero]
  exact List.length_filterMap_le _ _

end BoosterTutor
